import Mathlib

/-!
Verification development for the swarm-consensus orchestrator
(`src/lib/orchestrator.ts`, `src/lib/agentsConfig.ts`, `src/lib/utils.ts`).

The TypeScript source is shallowly embedded: JavaScript objects
(`Record<string, T>`) become insertion-ordered association lists together
with the ECMAScript own-property-key enumeration order (array-index-like
keys first, in ascending numeric order, then the remaining string keys in
insertion order) and with the `in` operator's prototype-chain semantics
(a plain object also "has" the `Object.prototype` member names, and `+=`
on such an inherited key creates a string-valued own property); JavaScript
numbers become an inductive type over the integers with explicit
non-finite values; fallible code returns `Option`/`Except`.
-/

namespace SwarmConsensus

/-! ## JavaScript primitive semantics -/

/-- ECMAScript `WhiteSpace` and `LineTerminator` code points, the character
class matched by `\s` in a regular expression and trimmed by
`String.prototype.trim`. -/
def jsWhitespace (c : Char) : Bool :=
  c.toNat = 0x9 ∨ c.toNat = 0xA ∨ c.toNat = 0xB ∨ c.toNat = 0xC ∨
  c.toNat = 0xD ∨ c.toNat = 0x20 ∨ c.toNat = 0xA0 ∨ c.toNat = 0x1680 ∨
  (0x2000 ≤ c.toNat ∧ c.toNat ≤ 0x200A) ∨ c.toNat = 0x2028 ∨
  c.toNat = 0x2029 ∨ c.toNat = 0x202F ∨ c.toNat = 0x205F ∨
  c.toNat = 0x3000 ∨ c.toNat = 0xFEFF

/-- Drop trailing characters satisfying `p`. -/
def dropTrailing (p : Char → Bool) (cs : List Char) : List Char :=
  (cs.reverse.dropWhile p).reverse

/-- Model of `String.prototype.trim`. -/
def jsTrim (s : String) : String :=
  String.mk (dropTrailing jsWhitespace (s.data.dropWhile jsWhitespace))

/-- One step of `text.replace(/\s+/g, " ")`: collapse every maximal run of
JS whitespace into a single space. -/
def collapseWs : List Char → List Char
  | [] => []
  | c :: cs =>
    if jsWhitespace c then
      ' ' :: collapseWs (cs.dropWhile jsWhitespace)
    else
      c :: collapseWs cs
termination_by cs => cs.length
decreasing_by
  · exact Nat.lt_succ_of_le (List.dropWhile_sublist _).length_le
  · exact Nat.lt_succ_self _

/-- Model of `truncate(text, maxLength)` from `orchestrator.ts`: collapse whitespace,
trim, then cut to `maxLength - 1` characters plus a horizontal ellipsis when
too long.  (The source counts UTF-16 code units; the model counts
characters, which agrees on the inputs appearing in this development.) -/
def truncate (text : String) (maxLength : Nat) : String :=
  let normalized := jsTrim (String.mk (collapseWs text.data))
  if normalized = "" then ""
  else if normalized.data.length ≤ maxLength then normalized
  else String.mk (normalized.data.take (maxLength - 1)) ++ "…"

/-- Decimal digit value of a character, if it is one. -/
def digitValue (c : Char) : Option Nat :=
  if 48 ≤ c.toNat ∧ c.toNat ≤ 57 then some (c.toNat - 48) else none

/-- Value of a list of decimal digits (most significant first); `none` if
any character is not a digit. -/
def decimalValue (cs : List Char) (acc : Nat) : Option Nat :=
  match cs with
  | [] => some acc
  | c :: cs =>
    match digitValue c with
    | some d => decimalValue cs (acc * 10 + d)
    | none => none

/-- ECMAScript array-index detection: a string is an array index when it is
the canonical decimal representation (non-empty, digits only, no leading
zero except for `"0"` itself) of an integer `n` with `0 ≤ n < 2^32 - 1`.
Such own-property keys are enumerated before all other string keys, in
ascending numeric order. -/
def jsArrayIndex (s : String) : Option Nat :=
  match s.data with
  | [] => none
  | c :: cs =>
    if c.toNat = 48 ∧ cs ≠ [] then none
    else
      match decimalValue (c :: cs) 0 with
      | some n => if n < 4294967295 then some n else none
      | none => none

/-! ## JavaScript objects as insertion-ordered association lists -/

/-- A JavaScript object with values of type `α`: the list of own properties
in insertion order. -/
abbrev JsObj (α : Type) := List (String × α)

/-- Model of `CreateDataProperty`: overwrite in place when the key exists (keeping
its position), otherwise append. -/
def jsInsert (o : JsObj α) (k : String) (v : α) : JsObj α :=
  if o.any (fun p => p.1 == k) then
    o.map (fun p => if p.1 == k then (p.1, v) else p)
  else
    o ++ [(k, v)]

/-- Model of `Object.fromEntries`. -/
def jsFromEntries (l : List (String × α)) : JsObj α :=
  l.foldl (fun o p => jsInsert o p.1 p.2) []

/-- Own-property test (`Object.prototype.hasOwnProperty`).  This is *not*
the `in` operator: `in` additionally sees properties inherited from the
prototype chain — see `jsIn`. -/
def jsHas (o : JsObj α) (k : String) : Bool :=
  o.any (fun p => p.1 == k)

/-- Own property read: value of the first entry with the given key. -/
def jsGet (o : JsObj α) (k : String) : Option α :=
  (o.find? (fun p => p.1 == k)).map (fun p => p.2)

/-- The own property names of `Object.prototype` (the seven ordinary
members plus the Annex B accessors), i.e. the string keys every plain
object inherits.  `"toString" in o` is `true` for any plain object `o`. -/
def OBJECT_PROTO_KEYS : List String :=
  ["constructor", "hasOwnProperty", "isPrototypeOf", "propertyIsEnumerable",
   "toLocaleString", "toString", "valueOf", "__defineGetter__",
   "__defineSetter__", "__lookupGetter__", "__lookupSetter__", "__proto__"]

/-- Model of the `in` operator (string keys) on a plain object whose
prototype is `Object.prototype`: an own property, or one inherited from
`Object.prototype`. -/
def jsIn (o : JsObj α) (k : String) : Bool :=
  jsHas o k || decide (k ∈ OBJECT_PROTO_KEYS)

/-- Numeric `+=` on an existing own key of an integer-valued object: the
integer-restricted reference version of `jsPlusAssign` below, exercised by
the reference aggregation `applyVoteInt` (which only ever adds to own
numeric keys). -/
def jsAdd (o : JsObj ℤ) (k : String) (v : ℤ) : JsObj ℤ :=
  o.map (fun p => if p.1 == k then (p.1, p.2 + v) else p)

/-- A stable insertion step for `jsStableSort`: `a` is placed before the
first element `b` with `le a b`. -/
def jsSortInsert (le : α → α → Bool) (a : α) : List α → List α
  | [] => [a]
  | b :: l => if le a b then a :: b :: l else b :: jsSortInsert le a l

/-- The stable sort mandated for `Array.prototype.sort` since ES2019:
modelled as insertion sort, which is stable and produces the unique
sorted-and-stable result for a consistent comparator. -/
def jsStableSort (le : α → α → Bool) : List α → List α
  | [] => []
  | a :: l => jsSortInsert le a (jsStableSort le l)

/-- Model of `[[OwnPropertyKeys]]` enumeration order used by `Object.entries`:
array-index keys first, in ascending numeric order, then the remaining
string keys in insertion order. -/
def jsEntries (o : JsObj α) : List (String × α) :=
  jsStableSort
      (fun p q => ((jsArrayIndex p.1).getD 0) ≤ ((jsArrayIndex q.1).getD 0))
      (o.filter (fun p => (jsArrayIndex p.1).isSome))
    ++ o.filter (fun p => (jsArrayIndex p.1).isNone)

/-! ## JavaScript numbers -/

/-- A JavaScript `number` as far as the orchestrator observes it: a finite
value or a non-finite value.  Finite values are modelled as integers: every
algorithm and every claim settled in this development is uniform in the
ordered carrier of scores (only `+`, `≤` and literals occur), and every
concrete score in the spec scenarios and the repository tests is an
integer, so the integer carrier is used to keep all definitions
kernel-computable.  `other` stands for a runtime value that is not a number
at all (possible because judge JSON is never validated); like `nan` it
fails the `Number.isFinite` test, which is the only way the aggregation
code looks at a score. -/
inductive NumV where
  | fin (q : ℤ)
  | nan
  | inf
  | ninf
  | other
  deriving Repr, DecidableEq

/-- Model of `Number.isFinite`. -/
def NumV.isFinite : NumV → Bool
  | .fin _ => true
  | _ => false

/-- The numeric value of a finite `NumV` (`Number(score)` after the
`Number.isFinite(score)` guard). -/
def NumV.val : NumV → ℤ
  | .fin q => q
  | _ => 0

/-- A runtime value of the `totals` object built by `aggregateVotes`.  The
object is declared `Record<string, number>` and starts all-integer, but
`totals[k] += v` on a key `k` that is only *inherited* from
`Object.prototype` reads the inherited native function, so `+=`
concatenates and stores a string; `undefined + v` would store `NaN`.
Integer-valued entries use the same integer carrier as `NumV.fin`. -/
inductive TVal where
  | int (n : ℤ)
  | str (s : String)
  | nan
  deriving Repr, DecidableEq

/-- JS `String(n)` for an integer number: its decimal representation (the
source only converts the integer carrier's values; the exponent form JS
uses from `1e21` upward is outside the disclosed integer abstraction). -/
def jsNumToString (n : ℤ) : String :=
  toString n

/-- ToPrimitive of the value inherited from `Object.prototype` at key `k`:
every data-valued member is a built-in function, whose string form follows
the `NativeFunction` grammar (`constructor` is the `Object` constructor
itself).  The `__proto__` accessor is special-cased in `jsPlusAssign` and
never reaches this conversion.  These payloads are carried for
faithfulness; no theorem below depends on them. -/
def protoFunString (k : String) : String :=
  if k = "constructor" then "function Object() \x7b [native code] \x7d"
  else "function " ++ k ++ "() \x7b [native code] \x7d"

/-- Model of ECMAScript `StringToNumber`, restricted to optionally signed
decimal integer literals: trim, empty means `0`, otherwise parse the
digits and anything else is `NaN`.  Fractional, exponent, hex and
`Infinity` forms all map to `NaN` here; that is exact for every string
this development ever stores in a totals object (each begins
`"function "` or `"[object "`, hence is `NaN` either way). -/
def jsStringToNumber (s : String) : NumV :=
  match dropTrailing jsWhitespace (s.data.dropWhile jsWhitespace) with
  | [] => .fin 0
  | c :: cs =>
    if c.toNat = 43 then
      if cs = [] then .nan
      else match decimalValue cs 0 with
        | some n => .fin (n : ℤ)
        | none => .nan
    else if c.toNat = 45 then
      if cs = [] then .nan
      else match decimalValue cs 0 with
        | some n => .fin (-(n : ℤ))
        | none => .nan
    else match decimalValue (c :: cs) 0 with
      | some n => .fin (n : ℤ)
      | none => .nan

/-- ToNumber of a totals value, as the ranking comparator's subtraction
coerces it. -/
def tvalToNum : TVal → NumV
  | .int n => .fin n
  | .str s => jsStringToNumber s
  | .nan => .nan

/-- JS addition `x + v` of a stored totals value and a finite number:
number addition, string concatenation (with `String(v)`), and
`NaN + v = NaN`. -/
def tvalAddNum : TVal → ℤ → TVal
  | .int n, v => .int (n + v)
  | .str s, v => .str (s ++ jsNumToString v)
  | .nan, _ => .nan

/-- Model of `o[k] += v` (`v` a finite number) on a plain object inheriting
from `Object.prototype`.  An own property is updated with `tvalAddNum`.
A key that is only inherited reads the inherited value, so `+=`
concatenates with the function's string form and *creates* a new own
property — except `__proto__`, whose inherited accessor's setter silently
ignores the primitive assignment.  An entirely absent key gives
`undefined + v = NaN` (unreachable behind the source's `in` guards, but
modelled). -/
def jsPlusAssign (o : JsObj TVal) (k : String) (v : ℤ) : JsObj TVal :=
  if jsHas o k then
    o.map (fun p => if p.1 == k then (p.1, tvalAddNum p.2 v) else p)
  else if k = "__proto__" then o
  else if decide (k ∈ OBJECT_PROTO_KEYS) then
    o ++ [(k, TVal.str (protoFunString k ++ jsNumToString v))]
  else o ++ [(k, TVal.nan)]

/-- An integer-valued object viewed as a totals object; this relates the
faithful aggregation to its integer-restricted reference. -/
def liftObj (o : JsObj ℤ) : JsObj TVal :=
  o.map (fun p => (p.1, TVal.int p.2))

/-- A parsed JSON value (what `JSON.parse` can return).  Numbers are
`NumV.fin` values; `JSON.parse` never yields the non-finite constructors,
but keeping the same number type avoids a second numeric model. -/
inductive JsValue where
  | null
  | bool (b : Bool)
  | num (n : NumV)
  | str (s : String)
  | arr (xs : List JsValue)
  | obj (fields : List (String × JsValue))
  deriving Repr

/-! ## Data model (`src/lib/types.ts`) -/

/-- Model of `CandidateAnswer`.  `latencyMs` and `createdAt` are carried but not
interpreted (wall-clock time is outside the model). -/
structure CandidateAnswer where
  id : String
  workerId : String
  workerName : String
  workerRoleDescription : String
  workerSystemPrompt : String
  workerModel : String
  initialAnswer : String
  initialReasoning : String
  answer : String
  reasoning : String
  discussionAnswer : Option String := none
  discussionReasoning : Option String := none
  latencyMs : Nat := 0
  createdAt : String := ""
  deriving Repr, DecidableEq

/-- Model of `JudgeVote` at its declared TypeScript type: `rankedIds : string[]`,
`scores : Record<string, number>`, and `notes` normalised to a string,
array or object (represented as a `JsValue`, defined below, via the
default instance).  The aggregation algorithm reads only `rankedIds` and
`scores`.  The ballot `id` (`crypto.randomUUID()`) is modelled as `""`. -/
structure JudgeVote where
  id : String := ""
  judgeId : String := ""
  judgeName : String := ""
  rankedIds : List String
  scores : List (String × NumV)
  notes : JsValue := .str ""
  deriving Repr

/-- One entry of `VotingResult.ranking`.  The score carries a `TVal`
because a ballot naming an inherited `Object.prototype` key makes the
totals object (and hence the ranking) hold a string value. -/
structure RankEntry where
  candidateId : String
  score : TVal
  deriving Repr, DecidableEq

/-- Model of `VotingResult`. -/
structure VotingResult where
  winnerId : String
  totals : JsObj TVal
  ranking : List RankEntry
  deriving Repr, DecidableEq

/-- A ranking entry of the integer-restricted reference aggregation. -/
structure RankEntryInt where
  candidateId : String
  score : ℤ
  deriving Repr, DecidableEq

/-- A reference ranking entry viewed as a `RankEntry`. -/
def liftRE (e : RankEntryInt) : RankEntry :=
  ⟨e.candidateId, .int e.score⟩

/-! ## The aggregation (consensus) algorithm (`aggregateVotes`) -/

/-- Fold one ballot into the running totals: filter `rankedIds` to the
keys the `in` operator sees on `totals` (own keys *and* the
`Object.prototype` keys), award `Math.max(ranked.length - index - 1, 0)`
points by position via `+=`, then add (again via `+=`, behind the same
`in` guard) every finite score, iterating `Object.entries(vote.scores)`
in own-property-key enumeration order. -/
def applyVote (totals : JsObj TVal) (vote : JudgeVote) : JsObj TVal :=
  let ranked := vote.rankedIds.filter (fun id => jsIn totals id)
  let afterRank :=
    ranked.enum.foldl
      (fun o p =>
        jsPlusAssign o p.2 (max ((ranked.length : ℤ) - (p.1 : ℤ) - 1) 0))
      totals
  (jsEntries vote.scores).foldl
    (fun o p =>
      if jsIn o p.1 ∧ p.2.isFinite then jsPlusAssign o p.1 p.2.val else o)
    afterRank

/-- The totals object built by `aggregateVotes` before ranking
(`Object.fromEntries(candidates.map((c) => [c.id, 0]))` folded over the
ballots). -/
def aggTotals (votes : List JudgeVote) (candidates : List CandidateAnswer) :
    JsObj TVal :=
  votes.foldl applyVote
    (jsFromEntries (candidates.map (fun c => (c.id, TVal.int 0))))

/-- Model of the comparator `(a, b) => b.score - a.score` composed with the
`SortCompare` step of `Array.prototype.sort`: the subtraction coerces both
scores with ToNumber, and a `NaN` comparison result is treated as `+0`
(equal).  A stored score is an integer or a `NaN`-coercing string, so the
non-finite cases collapse to the `NaN` branch. -/
def jsSortCompare (a b : RankEntry) : ℤ :=
  match tvalToNum b.score, tvalToNum a.score with
  | .fin nb, .fin na => nb - na
  | _, _ => 0

/-- Model of `Object.entries(totals).map(...).sort((a, b) => b.score - a.score)`,
as the stable insertion sort over the comparator `jsSortCompare`.  With
only integer scores the comparator is consistent and this is the unique
ES2019 result; with a string score the comparator is inconsistent and
ES2019 leaves the order implementation-defined — the theorems below that
speak about order therefore carry hypotheses confining the totals to
integers. -/
def aggRanking (totals : JsObj TVal) : List RankEntry :=
  jsStableSort (fun a b => jsSortCompare a b ≤ 0)
    ((jsEntries totals).map (fun p => ⟨p.1, p.2⟩))

/-- Model of `aggregateVotes`.  `none` models the `TypeError` the source raises when
the ranking is empty and the `candidates[0].id` fallback reads `.id` of
`undefined` (which requires `candidates = []`, and then an empty ranking
means no ballot smuggled an `Object.prototype` key past the `in` guard). -/
def aggregateVotes (votes : List JudgeVote)
    (candidates : List CandidateAnswer) : Option VotingResult :=
  let totals := aggTotals votes candidates
  let ranking := aggRanking totals
  match ranking.head? with
  | some e => some ⟨e.candidateId, totals, ranking⟩
  | none => candidates.head?.map (fun c => ⟨c.id, totals, ranking⟩)

/-- A ballot none of whose ranked ids or score keys is an inherited
`Object.prototype` property name.  Exactly for such ballots the `in`
guards of `aggregateVotes` coincide with own-key tests; a ballot naming
e.g. `"toString"` passes the `in` guard without being a candidate and
`+=` then writes a string-valued own entry into the totals object (see
the C1 and C4 counterexamples). -/
def CleanVote (v : JudgeVote) : Prop :=
  (∀ id ∈ v.rankedIds, id ∉ OBJECT_PROTO_KEYS) ∧
  (∀ p ∈ v.scores, p.1 ∉ OBJECT_PROTO_KEYS)

/-- The cleanliness of a ballot is decidable (so concrete witnesses can
discharge it by evaluation). -/
instance (v : JudgeVote) : Decidable (CleanVote v) :=
  inferInstanceAs
    (Decidable ((∀ id ∈ v.rankedIds, id ∉ OBJECT_PROTO_KEYS) ∧
      (∀ p ∈ v.scores, p.1 ∉ OBJECT_PROTO_KEYS)))

/-- The integer-restricted reference form of `applyVote`: own-key guards,
numeric `+=`, scores iterated in insertion order.  Equal to `applyVote`
on an all-integer totals object for a `CleanVote` (the bridge lemmas
below); the claims are stated about `applyVote`/`aggTotals`. -/
def applyVoteInt (totals : JsObj ℤ) (vote : JudgeVote) : JsObj ℤ :=
  let ranked := vote.rankedIds.filter (fun id => jsHas totals id)
  let afterRank :=
    ranked.enum.foldl
      (fun o p =>
        jsAdd o p.2 (max ((ranked.length : ℤ) - (p.1 : ℤ) - 1) 0))
      totals
  vote.scores.foldl
    (fun o p =>
      if jsHas o p.1 ∧ p.2.isFinite then jsAdd o p.1 p.2.val else o)
    afterRank

/-- The integer-restricted reference form of `aggTotals`. -/
def aggTotalsInt (votes : List JudgeVote) (candidates : List CandidateAnswer) :
    JsObj ℤ :=
  votes.foldl applyVoteInt
    (jsFromEntries (candidates.map (fun c => (c.id, (0 : ℤ)))))

/-- The integer-restricted reference form of `aggRanking`: descending
stable sort of integer totals entries. -/
def aggRankingInt (totals : JsObj ℤ) : List RankEntryInt :=
  jsStableSort (fun a b => b.score ≤ a.score)
    ((jsEntries totals).map (fun p => ⟨p.1, p.2⟩))

/-! ## Roster provider (`src/lib/agentsConfig.ts`) -/

/-- Model of `WorkerAgentProfile` (the `role` field is the constant `"worker"` and
is omitted). -/
structure WorkerAgentProfile where
  id : String
  name : String
  description : String
  systemPrompt : String
  model : String
  deriving Repr, DecidableEq

/-- Model of `JudgeAgentProfile` (the `role` field is the constant `"judge"` and is
omitted). -/
structure JudgeAgentProfile where
  id : String
  name : String
  description : String
  judgingPrompt : String
  model : String
  deriving Repr, DecidableEq

/-- Model of `MAX_WORKERS` from `src/lib/config.ts`. -/
def MAX_WORKERS : ℤ := 64

/-- Default value of the environment-configurable fast worker/judge model
preset (`MODEL_PRESETS.fast`); no claim depends on this string. -/
def FAST_MODEL : String := "gpt-5.1"

/-- The fixed worker roster `WORKER_AGENTS`. -/
def WORKER_AGENTS : List WorkerAgentProfile :=
  [⟨"strategist", "Strategic Thinker",
    "Frames long-range opportunities and sequencing.",
    "You are a strategic advisor. Map long-term implications, staged rollouts, and sequencing risks before recommending decisive actions.",
    FAST_MODEL⟩,
   ⟨"skeptic", "Skeptical Analyst",
    "Interrogates assumptions and stress-tests claims.",
    "You rigorously question assumptions. Identify weak links, missing data, edge cases, and failure modes before offering cautious guidance.",
    FAST_MODEL⟩,
   ⟨"ux", "UX Specialist",
    "Focuses on intuitive customer experiences.",
    "You think like a senior UX researcher. Translate ideas into user journeys, accessibility considerations, and polished UI guidance.",
    FAST_MODEL⟩,
   ⟨"systems", "Systems Architect",
    "Breaks down technical feasibility and trade-offs.",
    "Operate as a principal engineer. Produce clear architectures, integration notes, scalability trade-offs, and sequencing suggestions.",
    FAST_MODEL⟩,
   ⟨"risk", "Risk Officer",
    "Surfaces compliance, legal, and operational risk.",
    "You are a risk and compliance lead. Highlight regulatory exposure, operational choke points, and mitigation controls.",
    FAST_MODEL⟩,
   ⟨"storyteller", "Narrative Strategist",
    "Crafts compelling story arcs for stakeholders.",
    "Think like a narrative strategist. Build compelling story arcs, analogies, and executive-ready messaging grounded in the facts provided.",
    FAST_MODEL⟩,
   ⟨"data", "Data Analyst",
    "Grounds ideas in data, metrics, and experiments.",
    "You are an analytics lead. Suggest quant frameworks, KPIs, instrumentation, and experiments to validate the concept.",
    FAST_MODEL⟩,
   ⟨"simplifier", "Simplifier",
    "Explains ideas plainly and highlights essentials.",
    "You specialize in simplification. Distill down to the absolute essentials, clarifying concepts for a broad audience.",
    FAST_MODEL⟩,
   ⟨"customer", "Customer Advocate",
    "Champions end-user voice and sentiment.",
    "You channel real customers. Reflect emotional drivers, blockers, and desired outcomes using persona-grounded reasoning.",
    FAST_MODEL⟩,
   ⟨"growth", "Growth Strategist",
    "Identifies acquisition and retention levers.",
    "Act as a growth strategist. Outline acquisition channels, retention hooks, monetization bets, and quick validation loops.",
    FAST_MODEL⟩,
   ⟨"operations", "Operations Maestro",
    "Optimizes processes and execution discipline.",
    "You are an operations lead. Map processes, RACI ownership, SLAs, and instrumentation required for smooth execution.",
    FAST_MODEL⟩,
   ⟨"ethics", "Ethics & Safety",
    "Evaluates societal impact and governance.",
    "You assess ethical impact. Probe bias, misuse, long-term societal impacts, and governance recommendations.",
    FAST_MODEL⟩,
   ⟨"creative", "Creative Catalyst",
    "Produces imaginative alternatives and metaphors.",
    "Think divergently. Offer creative twists, adjacent inspirations, and bold metaphors that still connect to the brief.",
    FAST_MODEL⟩,
   ⟨"pm", "Product Sense PM",
    "Balances desirability, feasibility, viability.",
    "You are a Group PM. Frame user value, business impact, technical scope, and prioritization trade-offs.",
    FAST_MODEL⟩,
   ⟨"research", "Research Scout",
    "Fetches precedent, benchmarks, and trends.",
    "Surface adjacent research, market benchmarks, and trend signals that can inform the decision at hand.",
    FAST_MODEL⟩,
   ⟨"pragmatic-dev", "Pragmatic Engineer",
    "Focuses on deliverable implementation plans.",
    "You act as a pragmatic senior engineer. Offer implementation slices, tooling choices, and risk-adjusted delivery plans.",
    FAST_MODEL⟩]

/-- The fixed judge panel `JUDGE_AGENTS`. -/
def JUDGE_AGENTS : List JudgeAgentProfile :=
  [⟨"rigor-judge", "Rigor Judge",
    "Prioritizes evidence, logic, and internal consistency.",
    "You are evaluating multiple candidate answers to a user question. Reward answers that are rigorous, well-supported, and internally consistent. Provide JSON with ranked_ids, scores per candidate, and brief notes describing your rationale.",
    FAST_MODEL⟩,
   ⟨"pragmatic-judge", "Pragmatic Judge",
    "Values actionable, realistic guidance.",
    "Score the candidate answers based on practicality, feasibility, and clarity of next actions. Output JSON: \x7b ranked_ids: [], scores: \x7b id: number \x7d, notes: string \x7d.",
    FAST_MODEL⟩,
   ⟨"user-value-judge", "User-Value Judge",
    "Optimizes for user impact and empathy.",
    "Rank answers according to user value, empathy, and coverage of real needs. Return JSON with ranked_ids, per-candidate scores, and notes.",
    FAST_MODEL⟩,
   ⟨"safety-judge", "Safety Judge",
    "Looks for risk, compliance, and ethical balance.",
    "Evaluate each candidate answer for risk awareness, compliance, and ethical safeguards. Reward answers that responsibly address potential downsides. Respond in JSON.",
    FAST_MODEL⟩]

/-- Model of `selectWorkers(count)`: clamp the requested count into
`[1, min(MAX_WORKERS, rosterSize)]` and take that prefix of the roster. -/
def selectWorkers (count : ℤ) : List WorkerAgentProfile :=
  let safeCount := max 1 (min count (min MAX_WORKERS (WORKER_AGENTS.length : ℤ)))
  WORKER_AGENTS.take safeCount.toNat

/-- Model of `getJudgeAgents()`. -/
def getJudgeAgents : List JudgeAgentProfile := JUDGE_AGENTS

/-! ## Thrown JavaScript errors and dynamic values -/

/-- A caught JavaScript exception as `extractErrorMessage` distinguishes
them: an `Error` instance (carrying its `message`), a thrown string, or
anything else. -/
inductive JsError where
  | errObj (message : String)
  | strVal (s : String)
  | otherVal
  deriving Repr, DecidableEq

/-- Model of `extractErrorMessage` from `orchestrator.ts`. -/
def extractErrorMessage : JsError → String
  | .errObj m => m
  | .strVal s => s
  | .otherVal => "Unknown error"

/-- Message of the `TypeError` raised when reading a property of `null`.
The exact wording is engine-specific; only its non-emptiness matters. -/
def nullReadTypeError (field : String) : String :=
  "Cannot read properties of null (reading \x27" ++ field ++ "\x27)"

/-- Message of the `TypeError` raised when calling `.trim()` on a value
that is not a string.  The exact wording is engine-specific; only its
non-emptiness matters. -/
def trimNotFunctionError (field : String) : String :=
  "json." ++ field ++ "?.trim is not a function"

/-- Field read on a JSON value: `undefined` (`none`) unless the value is
an object containing the key.  Reading a field of `null` throws instead
and is handled at each use site. -/
def jsFieldOpt : JsValue → String → Option JsValue
  | .obj fields, k => (fields.find? (fun p => p.1 == k)).map (fun p => p.2)
  | _, _ => none

/-- The string content of a JSON value, if it is a string. -/
def jsValueAsString : JsValue → Option String
  | .str s => some s
  | _ => none

/-- The numeric content of a JSON value; any non-number is `NumV.other`,
which fails `Number.isFinite` exactly as the runtime value would. -/
def jsValueToNumV : JsValue → NumV
  | .num n => n
  | _ => .other

/-- Evaluate `json.<field>?.trim()`.  `Except.error` models the thrown
`TypeError` (reading a field of `null`, or `.trim()` on a non-string);
`.ok none` models `undefined` (absent field or `null` short-circuited by
`?.`). -/
def jsOptFieldTrim (json : JsValue) (field : String) :
    Except String (Option String) :=
  match json with
  | .null => .error (nullReadTypeError field)
  | _ =>
    match jsFieldOpt json field with
    | none => .ok none
    | some .null => .ok none
    | some (.str s) => .ok (some (jsTrim s))
    | some _ => .error (trimNotFunctionError field)

/-- JavaScript `x || d` for an optional string `x`. -/
def jsOrDefault (v : Option String) (d : String) : String :=
  match v with
  | some s => if s = "" then d else s
  | none => d

/-! ## Completion-gateway responses (`extractResponseText`) -/

/-- One entry of a `message` output item's `content` array. -/
structure OutputContentItem where
  type : Option String
  text : Option String
  deriving Repr, DecidableEq

/-- One entry of a response's `output` array. -/
structure OutputItem where
  type : Option String
  text : Option String
  content : Option (List OutputContentItem)
  deriving Repr, DecidableEq

/-- The duck-typed completion-service response envelope the orchestrator
inspects: an optional `output_text` string array and an optional `output`
item array. -/
structure ModelResp where
  output_text : Option (List String)
  output : Option (List OutputItem)
  deriving Repr, DecidableEq

/-- Text contributed by one `output` item (`Array.prototype.join` turns
`undefined` entries into the empty string). -/
def outputItemText (item : OutputItem) : String :=
  if item.type = some "message" then
    match item.content with
    | some cs =>
      String.intercalate ""
        (cs.map (fun ci => if ci.type = some "output_text" then ci.text.getD "" else ""))
    | none => ""
  else if item.type = some "output_text" then item.text.getD ""
  else ""

/-- The `output`-array branch of `extractResponseText`. -/
def outputBranchText (r : ModelResp) : String :=
  match r.output with
  | some items => jsTrim (String.intercalate "\n" (items.map outputItemText))
  | none => ""

/-- Model of `extractResponseText` from `orchestrator.ts`. -/
def extractResponseText (r : ModelResp) : String :=
  match r.output_text with
  | some l => if l ≠ [] then jsTrim (String.intercalate "\n" l) else outputBranchText r
  | none => outputBranchText r

/-- Model of `parseJsonResponse<T>` from `orchestrator.ts`: extract the response
text, return the fallback on empty text or parse failure, otherwise the
parsed value cast to `T` (the cast is materialised by `cast`).  `parse`
stands for the external `JSON.parse` builtin and is a parameter of the
model. -/
def parseJsonResponseWith (parse : String → Option JsValue) (r : ModelResp)
    (cast : JsValue → α) (fallback : α) : α :=
  let text := extractResponseText r
  if text = "" then fallback
  else
    match parse text with
    | some v => cast v
    | none => fallback

/-! ## Judging stage (`runJudgeVote`) -/

/-- The fallback passed to `parseJsonResponse` by `runJudgeVote`. -/
def judgeFallbackJson : JsValue :=
  .obj [("ranked_ids", .arr []), ("scores", .obj []),
        ("notes", .str "Judge produced invalid JSON.")]

/-- The ballot `runJudgeVote` returns from its `catch` branch. -/
def failedBallot (judge : JudgeAgentProfile) (msg : String) : JudgeVote :=
  { judgeId := judge.id, judgeName := judge.name,
    rankedIds := [], scores := [],
    notes := .str ("Judge failed: " ++ msg) }

/-- Model of `runJudgeVote`: the judging call's outcome is an input (`Except.error`
models a rejected call).  On success the raw text is parsed with the
shared `parseJsonResponse` fallback, then `ranked_ids`, `scores` and
`notes` are normalised exactly as in the source.  The ballot `id`
(`crypto.randomUUID()`) is modelled as `""`; no claim depends on it.
`rankedIds` keeps the string entries of the parsed array (its declared
TypeScript element type); `scores` keeps every entry of a `scores`
object — or, because the source only checks `typeof scores === "object"`,
the index-keyed entries of a `scores` array — with non-number values
becoming `NumV.other` (they fail `Number.isFinite`, as at runtime). -/
def runJudgeVote (parse : String → Option JsValue)
    (judge : JudgeAgentProfile) (outcome : Except JsError ModelResp) :
    JudgeVote :=
  match outcome with
  | .error e => failedBallot judge (extractErrorMessage e)
  | .ok resp =>
    let json := parseJsonResponseWith parse resp id judgeFallbackJson
    match json with
    | .null => failedBallot judge (nullReadTypeError "ranked_ids")
    | _ =>
      let rankedIds :=
        match jsFieldOpt json "ranked_ids" with
        | some (.arr xs) => xs.filterMap jsValueAsString
        | _ => []
      let scores :=
        match jsFieldOpt json "scores" with
        | some (.obj fields) => fields.map (fun p => (p.1, jsValueToNumV p.2))
        | some (.arr xs) => xs.enum.map (fun p => (toString p.1, jsValueToNumV p.2))
        | _ => []
      let notes :=
        match jsFieldOpt json "notes" with
        | some (.str s) => JsValue.str s
        | some (.arr xs) => JsValue.arr xs
        | some (.obj fs) => JsValue.obj fs
        | _ => JsValue.str ""
      { judgeId := judge.id, judgeName := judge.name,
        rankedIds := rankedIds, scores := scores, notes := notes }

/-- The judging stage: one ballot per judge, in panel order (the call
outcomes are indexed by panel position). -/
def judgeStage (parse : String → Option JsValue)
    (judges : List JudgeAgentProfile)
    (oracle : Nat → Except JsError ModelResp) : List JudgeVote :=
  judges.enum.map (fun p => runJudgeVote parse p.2 (oracle p.1))

/-! ## Proposal stage (`runWorkerCandidate`) -/

/-- The fallback passed to `parseJsonResponse` by `runWorkerCandidate`. -/
def workerFallbackJson : JsValue :=
  .obj [("answer", .str "Unable to provide an answer."),
        ("reasoning", .str "Worker model returned invalid response.")]

/-- The candidate `runWorkerCandidate` returns from its `catch` branch. -/
def failedCandidate (worker : WorkerAgentProfile) (uuid model msg : String) :
    CandidateAnswer :=
  { id := uuid, workerId := worker.id, workerName := worker.name,
    workerRoleDescription := worker.description,
    workerSystemPrompt := worker.systemPrompt, workerModel := model,
    initialAnswer := "Worker failed to respond.", initialReasoning := msg,
    answer := "Worker failed to respond.", reasoning := msg }

/-- Model of `runWorkerCandidate`: the worker call's outcome is an input.  The
`catch` also receives the `TypeError` thrown when the parsed JSON is
`null` or its `answer`/`reasoning` field is a non-string, because those
field reads happen inside the `try`.  `crypto.randomUUID()` and the
latency timer are modelled by the `uuid` argument and `latencyMs = 0`. -/
def runWorkerCandidate (parse : String → Option JsValue)
    (worker : WorkerAgentProfile) (uuid model : String)
    (outcome : Except JsError ModelResp) : CandidateAnswer :=
  match outcome with
  | .error e => failedCandidate worker uuid model (extractErrorMessage e)
  | .ok resp =>
    let json := parseJsonResponseWith parse resp id workerFallbackJson
    match jsOptFieldTrim json "answer", jsOptFieldTrim json "reasoning" with
    | .error m, _ => failedCandidate worker uuid model m
    | .ok _, .error m => failedCandidate worker uuid model m
    | .ok a, .ok r =>
      { id := uuid, workerId := worker.id, workerName := worker.name,
        workerRoleDescription := worker.description,
        workerSystemPrompt := worker.systemPrompt, workerModel := model,
        initialAnswer := jsOrDefault a "No answer provided.",
        initialReasoning := jsOrDefault r "No reasoning provided.",
        answer := jsOrDefault a "No answer provided.",
        reasoning := jsOrDefault r "No reasoning provided." }

/-- The proposal stage: one candidate per selected worker, in roster order
(call outcomes and fresh ids are indexed by position). -/
def proposalStage (parse : String → Option JsValue)
    (workers : List WorkerAgentProfile) (uuids : Nat → String)
    (model : String) (oracle : Nat → Except JsError ModelResp) :
    List CandidateAnswer :=
  workers.enum.map (fun p => runWorkerCandidate parse p.2 (uuids p.1) model (oracle p.1))

/-! ## Discussion stage (`runDiscussionRound`) -/

/-- One candidate's discussion-round update.  On a failed call (or a
`TypeError` from the field reads, caught by the same `catch`):
`discussionAnswer` is the prior answer, `discussionReasoning` the error
message, and `answer`/`reasoning` are unchanged.  On success the revised
fields overwrite `answer`/`reasoning` unless empty. -/
def runDiscussionCandidate (parse : String → Option JsValue)
    (candidate : CandidateAnswer) (outcome : Except JsError ModelResp) :
    CandidateAnswer :=
  match outcome with
  | .error e =>
    { candidate with
      discussionAnswer := some candidate.answer,
      discussionReasoning := some (extractErrorMessage e) }
  | .ok resp =>
    let json := parseJsonResponseWith parse resp id
      (.obj [("answer", .str candidate.answer),
             ("reasoning", .str candidate.reasoning)])
    match jsOptFieldTrim json "answer", jsOptFieldTrim json "reasoning" with
    | .error m, _ =>
      { candidate with
        discussionAnswer := some candidate.answer,
        discussionReasoning := some m }
    | .ok _, .error m =>
      { candidate with
        discussionAnswer := some candidate.answer,
        discussionReasoning := some m }
    | .ok a, .ok r =>
      { candidate with
        discussionAnswer := a, discussionReasoning := r,
        answer := jsOrDefault a candidate.answer,
        reasoning := jsOrDefault r candidate.reasoning }

/-- Model of `runDiscussionRound`: every candidate is revised concurrently; call
outcomes are indexed by position. -/
def runDiscussionRound (parse : String → Option JsValue)
    (candidates : List CandidateAnswer)
    (oracle : Nat → Except JsError ModelResp) : List CandidateAnswer :=
  candidates.enum.map (fun p => runDiscussionCandidate parse p.2 (oracle p.1))

/-! ## Finalizer stage (`runFinalizer`) -/

/-- Model of `FinalizerJson` at its declared TypeScript shape.  A successfully
parsed payload whose fields are missing or not strings is modelled with
`""`/`none` in those fields (no claim depends on such payloads). -/
structure FinalizerJson where
  final_answer : String
  short_rationale : String
  summary_title : Option String
  deriving Repr, DecidableEq

/-- Cast of a parsed finalizer payload to its declared shape. -/
def asFinalizerJson (v : JsValue) : FinalizerJson :=
  { final_answer := ((jsFieldOpt v "final_answer").bind jsValueAsString).getD "",
    short_rationale := ((jsFieldOpt v "short_rationale").bind jsValueAsString).getD "",
    summary_title := (jsFieldOpt v "summary_title").bind jsValueAsString }

/-- The fallback passed to `parseJsonResponse` by `runFinalizer`. -/
def finalizerFallback (userMessage : String) (winner : CandidateAnswer) :
    FinalizerJson :=
  { final_answer := winner.answer,
    short_rationale :=
      "Fell back to winning candidate because the finalizer returned invalid JSON.",
    summary_title := some (truncate userMessage 60) }

/-- Model of `candidates.find((c) => c.id === votingResult.winnerId) ?? candidates[0]`:
`none` only when the candidate list is empty. -/
def finalizerWinner (candidates : List CandidateAnswer) (vr : VotingResult) :
    Option CandidateAnswer :=
  match candidates.find? (fun c => c.id == vr.winnerId) with
  | some c => some c
  | none => candidates.head?

/-- How `runFinalizer` can fail.  Unlike every other stage it has no
`try`/`catch`: a rejected completion call (`call`) propagates out of the
stage, as does the `TypeError` from `winner.id` when the candidate list is
empty (`emptyCandidates`). -/
inductive FinalizerFailure where
  | emptyCandidates
  | call (msg : String)
  deriving Repr, DecidableEq

/-- Model of `runFinalizer`.  The winner and runner-up digests are computed before
the call; the runner-up digest and voting table only feed the prompt text
and are not modelled.  The call outcome is an input; there is no local
error handling, so a rejected call surfaces as `Except.error`. -/
def runFinalizer (parse : String → Option JsValue) (userMessage : String)
    (candidates : List CandidateAnswer) (vr : VotingResult)
    (outcome : Except JsError ModelResp) :
    Except FinalizerFailure FinalizerJson :=
  match finalizerWinner candidates vr with
  | none => .error .emptyCandidates
  | some winner =>
    match outcome with
    | .error e => .error (.call (extractErrorMessage e))
    | .ok resp =>
      .ok (parseJsonResponseWith parse resp asFinalizerJson
            (finalizerFallback userMessage winner))

/-! ## Text extraction utility (`parseJsonFromModel`, `src/lib/utils.ts`) -/

/-- Split a character list at the first occurrence of three consecutive
backticks: `some (before, after)` with
`cs = before ++ [backtick, backtick, backtick] ++ after`. -/
def splitAtTriple : List Char → Option (List Char × List Char)
  | c1 :: c2 :: c3 :: rest =>
    if c1.toNat = 96 ∧ c2.toNat = 96 ∧ c3.toNat = 96 then some ([], rest)
    else
      match splitAtTriple (c2 :: c3 :: rest) with
      | some (b, a) => some (c1 :: b, a)
      | none => none
  | _ => none

/-- After an opening fence `(?:json)?\s*`: greedily drop a literal `json`
and then the greedy whitespace run.  (Greediness never loses a match here:
the dropped characters contain no backtick, so no closing fence can start
inside them.) -/
def fenceGroupStart (cs : List Char) : List Char :=
  let cs' :=
    match cs with
    | 'j' :: 's' :: 'o' :: 'n' :: r => r
    | _ => cs
  cs'.dropWhile jsWhitespace

/-- Fuel-indexed worker for `stripFences`; the fuel (any bound on the
number of fenced blocks, e.g. the text length) keeps the recursion
structural so that the kernel can evaluate it. -/
def stripFencesFuel : Nat → List Char → List Char
  | 0, cs => cs
  | fuel + 1, cs =>
    match splitAtTriple cs with
    | none => cs
    | some (pre, afterOpen) =>
      match splitAtTriple (fenceGroupStart afterOpen) with
      | none => cs
      | some (inner, rest) =>
        pre ++ dropTrailing jsWhitespace inner ++ stripFencesFuel fuel rest

/-- Model of `text.replace(/(three backticks)(?:json)?\s*([\s\S]*?)\s*(three
backticks)/g, "$1")`: each fenced block is replaced by its inner content.
The lazy group ends at the first closing fence after the (greedy) opening
whitespace; the trailing `\s*` strips the whitespace run immediately
before that closing fence.  When an opening fence has no closing fence the
remainder is left unchanged (no later opening can succeed either, since
any later closing fence would already have closed the first opening). -/
def stripFences (cs : List Char) : List Char :=
  stripFencesFuel (cs.length + 1) cs

/-- The substring from the first `{` to the last `}` of the cleaned text,
when the last `}` lies strictly after the first `{`
(`indexOf`/`lastIndexOf` returning `-1` is modelled by `none`). -/
def braceSlice (cs : List Char) : Option (List Char) :=
  match cs.findIdx? (fun c => c.toNat = 123) with
  | none => none
  | some fb =>
    match cs.reverse.findIdx? (fun c => c.toNat = 125) with
    | none => none
    | some rb =>
      let lb := cs.length - 1 - rb
      if fb < lb then some ((cs.drop fb).take (lb - fb + 1)) else none

/-- Model of `parseJsonFromModel<T>` from `src/lib/utils.ts`.  `parse` stands for
the external `JSON.parse` builtin; `cast` materialises the unchecked
`as T` cast applied to a successfully parsed value; `text = none` models
`undefined`/`null`. -/
def parseJsonFromModel (parse : String → Option JsValue)
    (text : Option String) (cast : JsValue → α) (fallback : α) : α :=
  match text with
  | none => fallback
  | some t =>
    if t = "" then fallback
    else
      let cleanText := jsTrim (String.mk (stripFences t.data))
      match parse cleanText with
      | some v => cast v
      | none =>
        match braceSlice cleanText.data with
        | some sub =>
          match parse (String.mk sub) with
          | some v => cast v
          | none => fallback
        | none => fallback

/-! ## The turn pipeline (`runSwarmTurn`) -/

/-- Message of the `TypeError` raised when reading a property of
`undefined`; engine-specific wording, only non-emptiness matters. -/
def undefinedReadTypeError (field : String) : String :=
  "Cannot read properties of undefined (reading \x27" ++ field ++ "\x27)"

/-- The parameters of `runSwarmTurn` that influence its observable control
flow.  `files`, `history`, `mode` and `provider` only shape prompt text,
model identifiers and effort hints, all of which are absorbed by the
call-outcome oracles below. -/
structure SwarmTurnParams where
  userMessage : String
  agentsCount : ℤ
  discussionEnabled : Bool

/-- Model of `SwarmTurnResult` (without the optional `webFindings`, which the
orchestrator under verification never sets). -/
structure SwarmTurnResult where
  finalAnswer : String
  finalReasoning : String
  title : String
  candidates : List CandidateAnswer
  votes : List JudgeVote
  votingResult : VotingResult

/-- The per-turn oracles: fresh candidate ids (`crypto.randomUUID`) and
the outcome of every completion-gateway call, indexed by position within
its stage. -/
structure TurnOracles where
  uuids : Nat → String
  worker : Nat → Except JsError ModelResp
  discussion : Nat → Except JsError ModelResp
  judge : Nat → Except JsError ModelResp
  finalizer : Except JsError ModelResp

/-- Model of `runSwarmTurn`.  The returned `Nat` counts the completion-gateway
calls issued (workers, then discussion, then judges, then the finalizer);
`Except.error` models a rejected promise reaching the caller. -/
def runSwarmTurn (parse : String → Option JsValue) (params : SwarmTurnParams)
    (o : TurnOracles) : Except String SwarmTurnResult × Nat :=
  if jsTrim params.userMessage = "" then
    (.error "Message cannot be empty.", 0)
  else
    let workers := selectWorkers params.agentsCount
    let candidates0 := proposalStage parse workers o.uuids FAST_MODEL o.worker
    let calls1 := workers.length
    if candidates0.length = 0 then
      (.error "No worker candidates were generated.", calls1)
    else
      let stage2 :=
        if params.discussionEnabled then
          (runDiscussionRound parse candidates0 o.discussion,
           calls1 + candidates0.length)
        else (candidates0, calls1)
      let candidates := stage2.1
      let votes := judgeStage parse JUDGE_AGENTS o.judge
      let calls3 := stage2.2 + JUDGE_AGENTS.length
      match aggregateVotes votes candidates with
      | none => (.error (undefinedReadTypeError "id"), calls3)
      | some votingResult =>
        match runFinalizer parse params.userMessage candidates votingResult
            o.finalizer with
        | .error .emptyCandidates =>
          (.error (undefinedReadTypeError "id"), calls3)
        | .error (.call m) => (.error m, calls3 + 1)
        | .ok payload =>
          (.ok { finalAnswer := payload.final_answer,
                 finalReasoning := payload.short_rationale,
                 title :=
                   jsOrDefault payload.summary_title
                     (jsOrDefault (some (truncate params.userMessage 64))
                       "Untitled conversation"),
                 candidates := candidates, votes := votes,
                 votingResult := votingResult },
           calls3 + 1)

/-! ## Spec-side reference definitions

These follow the *spec's wording* (§4.7 of the spec and claim C1), to be
compared with the definitions above, which follow the source. -/

/-- The points a single ballot contributes to candidate `cid` according to
the spec: filter `rankedIds` to ids present in the candidate set
(preserving order); in the filtered list of length `k`, each occurrence of
`cid` at 0-based position `i` earns `max(k - i - 1, 0)`; independently,
every `scores` entry whose key is `cid` (a known candidate id) and whose
value is a finite number is added to the same total. -/
def specBallotContribution (ids : List String) (v : JudgeVote)
    (cid : String) : ℤ :=
  let filtered := v.rankedIds.filter (fun id => id ∈ ids)
  let k := filtered.length
  ((filtered.enum.filter (fun p => p.2 == cid)).map
      (fun p => max ((k : ℤ) - (p.1 : ℤ) - 1) 0)).sum
  + ((v.scores.filter (fun p => p.1 == cid && p.2.isFinite)).map
      (fun p => p.2.val)).sum

/-- The spec-side total of a candidate over all ballots. -/
def specTotal (ids : List String) (votes : List JudgeVote) (cid : String) : ℤ :=
  (votes.map (fun v => specBallotContribution ids v cid)).sum

/-! ## Concrete inputs for scenarios, witnesses and counterexamples -/

/-- A minimal well-formed candidate with a given id. -/
def testCandidate (id : String) : CandidateAnswer :=
  { id := id, workerId := "w-" ++ id, workerName := "Worker " ++ id,
    workerRoleDescription := "role", workerSystemPrompt := "prompt",
    workerModel := "m", initialAnswer := "first answer " ++ id,
    initialReasoning := "first reasoning", answer := "answer " ++ id,
    reasoning := "reasoning " ++ id }

/-- Scenario B candidates (ids `a` and `b`). -/
def scenarioBCandidates : List CandidateAnswer :=
  [testCandidate "a", testCandidate "b"]

/-- Scenario B ballots: judge 1 ranks `[a, b]` with no scores; judge 2
ranks `[b, a]` and assigns `scores = {b: 2}`. -/
def scenarioBVotes : List JudgeVote :=
  [{ rankedIds := ["a", "b"], scores := [] },
   { rankedIds := ["b", "a"], scores := [("b", .fin 2)] }]

/-- A ballot that ranks the real candidate `"a"` together with the
inherited `Object.prototype` key `"toString"` (a perfectly possible model
output: ballots are parsed from unvalidated JSON). -/
def protoBallot : JudgeVote :=
  { rankedIds := ["a", "toString"], scores := [] }

end SwarmConsensus

namespace SwarmConsensus

/-! ## Lemmas about JavaScript objects -/

theorem jsHas_iff_mem_keys (o : JsObj α) (k : String) :
    jsHas o k = true ↔ k ∈ o.map Prod.fst := by
  simp [jsHas, List.any_eq_true, List.mem_map]

theorem jsHas_eq_decide (o : JsObj α) (k : String) :
    jsHas o k = decide (k ∈ o.map Prod.fst) := by
  by_cases h : k ∈ o.map Prod.fst
  · rw [decide_eq_true h]
    exact (jsHas_iff_mem_keys o k).mpr h
  · rw [decide_eq_false h]
    exact Bool.eq_false_iff.mpr (fun hb => h ((jsHas_iff_mem_keys o k).mp hb))

theorem jsAdd_keys (o : JsObj ℤ) (k : String) (v : ℤ) :
    (jsAdd o k v).map Prod.fst = o.map Prod.fst := by
  unfold jsAdd
  rw [List.map_map]
  apply List.map_congr_left
  intro p _
  by_cases h : p.1 = k <;> simp [h]

theorem jsHas_jsAdd (o : JsObj ℤ) (k k' : String) (v : ℤ) :
    jsHas (jsAdd o k v) k' = jsHas o k' := by
  rw [jsHas_eq_decide, jsHas_eq_decide, jsAdd_keys]

theorem jsGet_nil (k : String) : jsGet ([] : JsObj α) k = none := rfl

theorem jsGet_cons (p : String × α) (o : JsObj α) (k : String) :
    jsGet (p :: o) k = if p.1 = k then some p.2 else jsGet o k := by
  by_cases h : p.1 = k <;> simp [jsGet, List.find?_cons, h]

theorem jsAdd_cons (p : String × ℤ) (o : JsObj ℤ) (k : String) (v : ℤ) :
    jsAdd (p :: o) k v =
      (if p.1 == k then (p.1, p.2 + v) else p) :: jsAdd o k v := rfl

theorem jsGet_jsAdd (o : JsObj ℤ) (k k' : String) (v : ℤ) :
    jsGet (jsAdd o k v) k' =
      if k' = k then (jsGet o k').map (· + v) else jsGet o k' := by
  induction o with
  | nil => by_cases h : k' = k <;> simp [jsGet, jsAdd, h]
  | cons p o ih =>
    rw [jsAdd_cons]
    by_cases hpk : p.1 = k
    · rw [if_pos (by simp [hpk])]
      by_cases hk2 : p.1 = k'
      · have hkk : k' = k := hk2.symm.trans hpk
        rw [jsGet_cons, jsGet_cons, if_pos hk2, if_pos hk2, if_pos hkk]
        simp
      · rw [jsGet_cons, jsGet_cons, if_neg hk2, if_neg hk2, ih]
    · rw [if_neg (by simp [hpk])]
      by_cases hk2 : p.1 = k'
      · have hkk : k' ≠ k := fun h => hpk (hk2.trans h)
        rw [jsGet_cons, jsGet_cons, if_pos hk2, if_pos hk2, if_neg hkk]
      · rw [jsGet_cons, jsGet_cons, if_neg hk2, if_neg hk2, ih]

/-- The first component of a fold of `jsAdd` updates. -/
theorem foldl_jsAdd_keys (L : List (String × ℤ)) (o : JsObj ℤ) :
    (L.foldl (fun o p => jsAdd o p.1 p.2) o).map Prod.fst = o.map Prod.fst := by
  induction L generalizing o with
  | nil => rfl
  | cons p L ih => rw [List.foldl_cons, ih, jsAdd_keys]

/-- Reading one key through a fold of `jsAdd` updates adds the sum of the
matching update values. -/
theorem jsGet_foldl_jsAdd (L : List (String × ℤ)) (o : JsObj ℤ) (c : String) :
    jsGet (L.foldl (fun o p => jsAdd o p.1 p.2) o) c =
      (jsGet o c).map
        (· + ((L.filter (fun p => p.1 == c)).map Prod.snd).sum) := by
  induction L generalizing o with
  | nil => cases h : jsGet o c <;> simp [h]
  | cons p L ih =>
    rw [List.foldl_cons, ih, jsGet_jsAdd]
    by_cases h : c = p.1
    · rw [if_pos h]
      rw [List.filter_cons_of_pos (by simp [h.symm])]
      cases hg : jsGet o c <;> simp [hg, add_assoc]
    · rw [if_neg h]
      rw [List.filter_cons_of_neg (by simp; exact fun he => h he.symm)]

theorem jsHas_append (a b : JsObj α) (k : String) :
    jsHas (a ++ b) k = (jsHas a k || jsHas b k) := by
  simp [jsHas, List.any_append]

theorem jsInsert_of_not_has (o : JsObj α) (k : String) (v : α)
    (h : jsHas o k = false) : jsInsert o k v = o ++ [(k, v)] := by
  unfold jsHas at h
  unfold jsInsert
  simp only [h]
  rfl

theorem jsFromEntries_aux (l : List (String × α)) (acc : JsObj α)
    (hnd : (l.map Prod.fst).Nodup)
    (hd : ∀ k ∈ l.map Prod.fst, jsHas acc k = false) :
    l.foldl (fun o p => jsInsert o p.1 p.2) acc = acc ++ l := by
  induction l generalizing acc with
  | nil => simp
  | cons p l ih =>
    rw [List.foldl_cons, jsInsert_of_not_has acc p.1 p.2 (hd p.1 (by simp))]
    have hnd' : (l.map Prod.fst).Nodup := (List.nodup_cons.mp (by simpa using hnd)).2
    have hhead : p.1 ∉ l.map Prod.fst := (List.nodup_cons.mp (by simpa using hnd)).1
    rw [ih (acc ++ [p]) hnd']
    · simp
    · intro k hk
      rw [jsHas_append]
      have h1 : jsHas acc k = false := hd k (by simp [hk])
      have hne : p.1 ≠ k := fun he => hhead (he ▸ hk)
      have h2 : jsHas [p] k = false := by simp [jsHas, hne]
      rw [h1, h2]
      rfl

theorem jsFromEntries_of_nodup (l : List (String × α))
    (hnd : (l.map Prod.fst).Nodup) : jsFromEntries l = l := by
  unfold jsFromEntries
  rw [jsFromEntries_aux l [] hnd (fun k _ => rfl)]
  rfl

theorem jsGet_of_mem_nodup (l : JsObj α) (hnd : (l.map Prod.fst).Nodup)
    (p : String × α) (hp : p ∈ l) : jsGet l p.1 = some p.2 := by
  induction l with
  | nil => cases hp
  | cons q l ih =>
    rw [jsGet_cons]
    rcases List.mem_cons.mp hp with rfl | hp2
    · rw [if_pos rfl]
    · have hq : q.1 ≠ p.1 := by
        intro he
        exact (List.nodup_cons.mp (by simpa using hnd)).1
          (he ▸ List.mem_map_of_mem Prod.fst hp2)
      rw [if_neg hq]
      exact ih (List.nodup_cons.mp (by simpa using hnd)).2 hp2

theorem jsGet_map_const {β : Type} (l : List β) (f : β → String) (v : α)
    (k : String) :
    jsGet (l.map (fun c => (f c, v))) k =
      if k ∈ l.map f then some v else none := by
  induction l with
  | nil => simp [jsGet]
  | cons b l ih =>
    rw [List.map_cons, jsGet_cons]
    by_cases h : f b = k
    · simp [h]
    · rw [if_neg h, ih]
      by_cases hm : k ∈ l.map f
      · rw [if_pos hm, if_pos (by simp [hm])]
      · rw [if_neg hm, if_neg (by simp [hm]; exact fun he => h he.symm)]

/-! ## Characterisation of `applyVoteInt` and `aggTotalsInt` -/

/-- The guarded score fold of `applyVoteInt` equals an unguarded `jsAdd` fold
over the entries passing the (key-stable) guard. -/
theorem scores_foldl_eq (L : List (String × NumV)) (o : JsObj ℤ)
    (has : String → Bool) (hhas : ∀ k, jsHas o k = has k) :
    L.foldl
        (fun o p => if jsHas o p.1 ∧ p.2.isFinite then jsAdd o p.1 p.2.val else o)
        o =
      ((L.filter (fun p => has p.1 && p.2.isFinite)).map
          (fun p => (p.1, p.2.val))).foldl
        (fun o q => jsAdd o q.1 q.2) o := by
  induction L generalizing o with
  | nil => rfl
  | cons p L ih =>
    rw [List.foldl_cons]
    by_cases hc : jsHas o p.1 ∧ p.2.isFinite
    · rw [if_pos hc]
      rw [List.filter_cons_of_pos
            (by rw [← hhas p.1]; exact (by simp [hc.1, hc.2])),
          List.map_cons, List.foldl_cons]
      exact ih (jsAdd o p.1 p.2.val)
        (fun k => (jsHas_jsAdd o p.1 k p.2.val).trans (hhas k))
    · rw [if_neg hc]
      rw [List.filter_cons_of_neg
            (by rw [← hhas p.1]; intro hb; exact hc (by simpa using hb))]
      exact ih o hhas

theorem foldl_jsAdd_pair {β : Type} (f1 : β → String) (f2 : β → ℤ)
    (l : List β) (o : JsObj ℤ) :
    l.foldl (fun o p => jsAdd o (f1 p) (f2 p)) o =
      (l.map (fun p => (f1 p, f2 p))).foldl (fun o q => jsAdd o q.1 q.2) o := by
  rw [List.foldl_map]

theorem foldl_jsAdd_pair_keys {β : Type} (f1 : β → String) (f2 : β → ℤ)
    (l : List β) (o : JsObj ℤ) :
    (l.foldl (fun o p => jsAdd o (f1 p) (f2 p)) o).map Prod.fst =
      o.map Prod.fst := by
  rw [foldl_jsAdd_pair, foldl_jsAdd_keys]

theorem jsGet_foldl_jsAdd_pair {β : Type} (f1 : β → String) (f2 : β → ℤ)
    (l : List β) (o : JsObj ℤ) (c : String) :
    jsGet (l.foldl (fun o p => jsAdd o (f1 p) (f2 p)) o) c =
      (jsGet o c).map
        (· + ((l.filter (fun p => f1 p == c)).map f2).sum) := by
  rw [foldl_jsAdd_pair, jsGet_foldl_jsAdd, List.filter_map, List.map_map]
  rfl

theorem applyVoteInt_keys (t : JsObj ℤ) (v : JudgeVote) :
    (applyVoteInt t v).map Prod.fst = t.map Prod.fst := by
  unfold applyVoteInt
  rw [scores_foldl_eq _ _ _ (fun k => rfl)]
  rw [foldl_jsAdd_keys]
  rw [foldl_jsAdd_pair_keys]

/-- Reading a key after one `applyVoteInt` step: the rank-derived points for
occurrences of `cid` in the filtered ranking plus the finite scores keyed
by `cid` (with the filters phrased exactly as the code phrases them). -/
theorem jsGet_applyVoteInt (t : JsObj ℤ) (v : JudgeVote) (cid : String) :
    jsGet (applyVoteInt t v) cid =
      (jsGet t cid).map
        (· +
          ((((v.rankedIds.filter (fun id => jsHas t id)).enum.filter
                (fun p => p.2 == cid)).map
              (fun p =>
                max (((v.rankedIds.filter (fun id => jsHas t id)).length : ℤ) -
                    (p.1 : ℤ) - 1) 0)).sum +
           (((v.scores.filter (fun p => jsHas t p.1 && p.2.isFinite)).filter
                (fun p => p.1 == cid)).map (fun p => p.2.val)).sum)) := by
  unfold applyVoteInt
  have hkeys :
      ∀ k, jsHas
        ((v.rankedIds.filter (fun id => jsHas t id)).enum.foldl
          (fun o p =>
            jsAdd o p.2
              (max (((v.rankedIds.filter (fun id => jsHas t id)).length : ℤ) -
                  (p.1 : ℤ) - 1) 0))
          t) k = jsHas t k := by
    intro k
    rw [jsHas_eq_decide, jsHas_eq_decide, foldl_jsAdd_pair_keys]
  rw [scores_foldl_eq _ _ _ hkeys]
  rw [jsGet_foldl_jsAdd]
  rw [jsGet_foldl_jsAdd_pair]
  rw [List.filter_map, List.map_map]
  rw [Option.map_map]
  cases hg : jsGet t cid with
  | none => rfl
  | some x =>
    simp [add_assoc]
    rfl

/-- One `applyVoteInt` step phrased against the spec-side contribution, under
the key invariant. -/
theorem jsGet_applyVoteInt_spec (t : JsObj ℤ) (v : JudgeVote)
    (ids : List String) (hkeys : t.map Prod.fst = ids) (cid : String)
    (hcid : cid ∈ ids) (x : ℤ) (hx : jsGet t cid = some x) :
    jsGet (applyVoteInt t v) cid =
      some (x + specBallotContribution ids v cid) := by
  have hf : (fun (id : String) => jsHas t id) =
      (fun id => decide (id ∈ ids)) := by
    funext id
    rw [jsHas_eq_decide, hkeys]
  have hcidhas : jsHas t cid = true := by
    rw [jsHas_eq_decide, hkeys]
    exact decide_eq_true hcid
  have h1 := jsGet_applyVoteInt t v cid
  rw [hf] at h1
  rw [List.filter_filter] at h1
  have hsc :
      v.scores.filter
          (fun p => (p.1 == cid) && (jsHas t p.1 && p.2.isFinite)) =
        v.scores.filter (fun p => (p.1 == cid) && p.2.isFinite) := by
    apply List.filter_congr
    intro p _
    by_cases h : p.1 = cid
    · rw [h]
      simp [hcidhas]
    · have hb : (p.1 == cid) = false := by
        cases hbe : (p.1 == cid)
        · rfl
        · exact absurd (by simpa using hbe) h
      rw [hb]
      rfl
  rw [hsc] at h1
  rw [h1, hx]
  simp [specBallotContribution]

/-- Folding all ballots into a totals object with the candidate-id key
list adds exactly the spec-side total. -/
theorem jsGet_foldl_applyVoteInt (votes : List JudgeVote) (ids : List String)
    (t : JsObj ℤ) (hkeys : t.map Prod.fst = ids) (cid : String)
    (hcid : cid ∈ ids) (x : ℤ) (hx : jsGet t cid = some x) :
    jsGet (votes.foldl applyVoteInt t) cid =
      some (x + specTotal ids votes cid) := by
  induction votes generalizing t x with
  | nil => simpa [specTotal] using hx
  | cons v votes ih =>
    rw [List.foldl_cons]
    have hstep := jsGet_applyVoteInt_spec t v ids hkeys cid hcid x hx
    have hkeys2 : (applyVoteInt t v).map Prod.fst = ids := by
      rw [applyVoteInt_keys, hkeys]
    have := ih (applyVoteInt t v) hkeys2
      (x + specBallotContribution ids v cid) hstep
    rw [this]
    simp [specTotal, add_assoc]

theorem aggTotalsInt_init_eq (cands : List CandidateAnswer)
    (hnd : (cands.map CandidateAnswer.id).Nodup) :
    jsFromEntries (cands.map (fun c => (c.id, (0 : ℤ)))) =
      cands.map (fun c => (c.id, (0 : ℤ))) := by
  apply jsFromEntries_of_nodup
  rw [List.map_map]
  exact hnd

theorem foldl_applyVoteInt_keys (votes : List JudgeVote) (t : JsObj ℤ) :
    (votes.foldl applyVoteInt t).map Prod.fst = t.map Prod.fst := by
  induction votes generalizing t with
  | nil => rfl
  | cons v votes ih => rw [List.foldl_cons, ih, applyVoteInt_keys]

theorem aggTotalsInt_keys (votes : List JudgeVote)
    (cands : List CandidateAnswer)
    (hnd : (cands.map CandidateAnswer.id).Nodup) :
    (aggTotalsInt votes cands).map Prod.fst = cands.map CandidateAnswer.id := by
  unfold aggTotalsInt
  rw [aggTotalsInt_init_eq cands hnd]
  rw [foldl_applyVoteInt_keys, List.map_map]
  rfl

/-- The reference totals object assigns to every candidate id exactly the
spec-side total (candidate ids assumed distinct); `aggTotals_lift`
transports this to the faithful `aggTotals` for clean ballots. -/
theorem jsGet_aggTotalsInt_spec (votes : List JudgeVote)
    (cands : List CandidateAnswer)
    (hnd : (cands.map CandidateAnswer.id).Nodup) (cid : String)
    (hcid : cid ∈ cands.map CandidateAnswer.id) :
    jsGet (aggTotalsInt votes cands) cid =
      some (specTotal (cands.map CandidateAnswer.id) votes cid) := by
  unfold aggTotalsInt
  rw [aggTotalsInt_init_eq cands hnd]
  have hkeys : (cands.map (fun c => (c.id, (0 : ℤ)))).map Prod.fst =
      cands.map CandidateAnswer.id := by
    rw [List.map_map]; rfl
  have hx : jsGet (cands.map (fun c => (c.id, (0 : ℤ)))) cid = some 0 := by
    rw [jsGet_map_const cands CandidateAnswer.id 0 cid, if_pos hcid]
  rw [jsGet_foldl_applyVoteInt votes (cands.map CandidateAnswer.id) _ hkeys cid
        hcid 0 hx]
  rw [zero_add]

/-! ## Lemmas about the stable sort and key enumeration -/

theorem jsSortInsert_perm (le : α → α → Bool) (a : α) (l : List α) :
    List.Perm (jsSortInsert le a l) (a :: l) := by
  induction l with
  | nil => rfl
  | cons b l ih =>
    rw [jsSortInsert]
    by_cases h : le a b = true
    · rw [if_pos h]
    · rw [if_neg h]
      exact (ih.cons b).trans (List.Perm.swap a b l)

theorem jsStableSort_perm (le : α → α → Bool) (l : List α) :
    List.Perm (jsStableSort le l) l := by
  induction l with
  | nil => rfl
  | cons a l ih => exact (jsSortInsert_perm le a _).trans (ih.cons a)

theorem jsSortInsert_pairwise (le : α → α → Bool)
    (htot : ∀ a b, le a b = true ∨ le b a = true)
    (htrans : ∀ a b c, le a b = true → le b c = true → le a c = true)
    (a : α) (l : List α)
    (hl : l.Pairwise (fun x y => le x y = true)) :
    (jsSortInsert le a l).Pairwise (fun x y => le x y = true) := by
  induction l with
  | nil => simp [jsSortInsert]
  | cons b l ih =>
    rw [jsSortInsert]
    by_cases h : le a b = true
    · rw [if_pos h]
      refine List.Pairwise.cons ?_ hl
      intro x hx
      rcases List.mem_cons.mp hx with rfl | hx2
      · exact h
      · exact htrans a b x h ((List.pairwise_cons.mp hl).1 x hx2)
    · rw [if_neg h]
      have hba : le b a = true := (htot a b).resolve_left h
      refine List.Pairwise.cons ?_ (ih (List.pairwise_cons.mp hl).2)
      intro x hx
      rcases List.mem_cons.mp ((jsSortInsert_perm le a l).mem_iff.mp hx) with
        rfl | hx2
      · exact hba
      · exact (List.pairwise_cons.mp hl).1 x hx2

theorem jsStableSort_pairwise (le : α → α → Bool)
    (htot : ∀ a b, le a b = true ∨ le b a = true)
    (htrans : ∀ a b c, le a b = true → le b c = true → le a c = true)
    (l : List α) :
    (jsStableSort le l).Pairwise (fun x y => le x y = true) := by
  induction l with
  | nil => exact List.Pairwise.nil
  | cons a l ih => exact jsSortInsert_pairwise le htot htrans a _ ih

/-- Stability of the insertion step: an element satisfying `p` is inserted
before only elements not satisfying `p` (given `hskip`), so filtering by
`p` sees it first. -/
theorem filter_jsSortInsert_pos (le : α → α → Bool) (p : α → Bool) (a : α)
    (l : List α) (hpa : p a = true)
    (hskip : ∀ b, le a b = false → p b = false) :
    (jsSortInsert le a l).filter p = a :: l.filter p := by
  induction l with
  | nil => simp [jsSortInsert, hpa]
  | cons b l ih =>
    rw [jsSortInsert]
    by_cases h : le a b = true
    · rw [if_pos h, List.filter_cons_of_pos hpa]
    · rw [if_neg h]
      have hpb : p b = false := hskip b (Bool.eq_false_iff.mpr h)
      rw [List.filter_cons_of_neg (by simp [hpb]), ih,
          List.filter_cons_of_neg (by simp [hpb])]

theorem filter_jsSortInsert_neg (le : α → α → Bool) (p : α → Bool) (a : α)
    (l : List α) (hpa : p a = false) :
    (jsSortInsert le a l).filter p = l.filter p := by
  induction l with
  | nil => simp [jsSortInsert, hpa]
  | cons b l ih =>
    rw [jsSortInsert]
    by_cases h : le a b = true
    · rw [if_pos h, List.filter_cons_of_neg (by simp [hpa])]
    · rw [if_neg h]
      by_cases hb : p b = true
      · rw [List.filter_cons_of_pos hb, List.filter_cons_of_pos hb, ih]
      · rw [List.filter_cons_of_neg hb, List.filter_cons_of_neg hb, ih]

/-- Stability of the sort: elements that are tied (mutually `le` whenever
both satisfy `p`) keep their original relative order — filtering by `p`
commutes with sorting. -/
theorem filter_jsStableSort (le : α → α → Bool) (p : α → Bool)
    (hcomp : ∀ a b, p a = true → p b = true → le a b = true)
    (l : List α) : (jsStableSort le l).filter p = l.filter p := by
  induction l with
  | nil => rfl
  | cons a l ih =>
    rw [jsStableSort]
    by_cases hpa : p a = true
    · rw [filter_jsSortInsert_pos le p a _ hpa ?hskip, ih,
          List.filter_cons_of_pos hpa]
      case hskip =>
        intro b hba
        cases hpb : p b
        · rfl
        · exact absurd (hcomp a b hpa hpb) (by simp [hba])
    · have hpa2 : p a = false := Bool.eq_false_iff.mpr hpa
      rw [filter_jsSortInsert_neg le p a _ hpa2, ih,
          List.filter_cons_of_neg (by simp [hpa2])]

theorem jsEntries_perm (o : JsObj α) : List.Perm (jsEntries o) o := by
  unfold jsEntries
  refine ((jsStableSort_perm _ _).append_right _).trans ?_
  rw [show (o.filter fun p => (jsArrayIndex p.1).isNone) =
        (o.filter fun p => !(jsArrayIndex p.1).isSome) from
      List.filter_congr (by intro x _; cases jsArrayIndex x.1 <;> rfl)]
  exact List.filter_append_perm _ o

theorem jsEntries_of_noIndex (o : JsObj α)
    (h : ∀ p ∈ o, jsArrayIndex p.1 = none) : jsEntries o = o := by
  unfold jsEntries
  rw [show (o.filter fun p => (jsArrayIndex p.1).isSome) = [] from
      List.filter_eq_nil_iff.mpr (by intro p hp; rw [h p hp]; simp)]
  rw [show (o.filter fun p => (jsArrayIndex p.1).isNone) = o from
      List.filter_eq_self.mpr (by intro p hp; rw [h p hp]; rfl)]
  rfl

/-- An association list with a pointwise description of its values equals
the map of that description over its keys. -/
theorem jsObj_eq_map (l : JsObj α) (g : String → α)
    (hg : ∀ p ∈ l, g p.1 = p.2) :
    l = (l.map Prod.fst).map (fun k => (k, g k)) := by
  induction l with
  | nil => rfl
  | cons p l ih =>
    simp only [List.map_cons]
    rw [← ih (fun q hq => hg q (List.mem_cons_of_mem p hq))]
    rw [hg p (List.mem_cons_self p l)]

/-! ## Structural lemmas about the aggregation result -/

theorem applyVoteInt_of_empty (t : JsObj ℤ) (v : JudgeVote)
    (h1 : v.rankedIds = []) (h2 : v.scores = []) : applyVoteInt t v = t := by
  unfold applyVoteInt
  rw [h1, h2]
  rfl

theorem jsInsert_length_le (o : JsObj α) (k : String) (v : α) :
    o.length ≤ (jsInsert o k v).length := by
  unfold jsInsert
  split
  · rw [List.length_map]
  · rw [List.length_append]
    omega

theorem foldl_jsInsert_length (l : List (String × α)) (acc : JsObj α) :
    acc.length ≤ (l.foldl (fun o q => jsInsert o q.1 q.2) acc).length := by
  induction l generalizing acc with
  | nil => exact Nat.le_refl _
  | cons q l ih =>
    rw [List.foldl_cons]
    exact Nat.le_trans (jsInsert_length_le acc q.1 q.2)
      (ih (jsInsert acc q.1 q.2))

theorem jsFromEntries_ne_nil (l : List (String × α)) (h : l ≠ []) :
    jsFromEntries l ≠ [] := by
  match l, h with
  | p :: l, _ =>
    unfold jsFromEntries
    rw [List.foldl_cons]
    have h1 : jsInsert ([] : JsObj α) p.1 p.2 = [(p.1, p.2)] := rfl
    rw [h1]
    intro hnil
    have hlen := foldl_jsInsert_length l [(p.1, p.2)]
    rw [hnil] at hlen
    simp at hlen

theorem aggTotalsInt_nil (votes : List JudgeVote) :
    aggTotalsInt votes [] = [] := by
  unfold aggTotalsInt
  have h0 : jsFromEntries (([] : List CandidateAnswer).map
      (fun c => (c.id, (0 : ℤ)))) = [] := rfl
  rw [h0]
  exact List.map_eq_nil_iff.mp (foldl_applyVoteInt_keys votes [])

theorem aggTotalsInt_ne_nil (votes : List JudgeVote)
    (cands : List CandidateAnswer) (h : cands ≠ []) :
    aggTotalsInt votes cands ≠ [] := by
  intro hnil
  have hk := foldl_applyVoteInt_keys votes
    (jsFromEntries (cands.map (fun c => (c.id, (0 : ℤ)))))
  unfold aggTotalsInt at hnil
  rw [hnil] at hk
  have : jsFromEntries (cands.map (fun c => (c.id, (0 : ℤ)))) = [] :=
    List.map_eq_nil_iff.mp hk.symm
  exact jsFromEntries_ne_nil _ (by simp [h]) this

theorem aggRankingInt_length (totals : JsObj ℤ) :
    (aggRankingInt totals).length = totals.length := by
  unfold aggRankingInt
  rw [(jsStableSort_perm _ _).length_eq, List.length_map,
      (jsEntries_perm totals).length_eq]

theorem aggRankingInt_head_some (votes : List JudgeVote)
    (cands : List CandidateAnswer) (h : cands ≠ []) :
    ∃ e, (aggRankingInt (aggTotalsInt votes cands)).head? = some e := by
  have hlen : (aggRankingInt (aggTotalsInt votes cands)).length ≠ 0 := by
    rw [aggRankingInt_length]
    exact fun hz => aggTotalsInt_ne_nil votes cands h (List.length_eq_zero.mp hz)
  match hh : (aggRankingInt (aggTotalsInt votes cands)).head? with
  | some e => exact ⟨e, rfl⟩
  | none =>
    rw [List.head?_eq_none_iff] at hh
    exact absurd (by rw [hh]; rfl) hlen

/-! ## Unfolding equations for the faithful aggregation -/

theorem applyVote_def (totals : JsObj TVal) (v : JudgeVote) :
    applyVote totals v =
      (jsEntries v.scores).foldl
        (fun o p =>
          if jsIn o p.1 ∧ p.2.isFinite then jsPlusAssign o p.1 p.2.val else o)
        ((v.rankedIds.filter (fun id => jsIn totals id)).enum.foldl
          (fun o p =>
            jsPlusAssign o p.2
              (max (((v.rankedIds.filter (fun id => jsIn totals id)).length : ℤ) -
                  (p.1 : ℤ) - 1) 0))
          totals) := rfl

theorem applyVoteInt_def (totals : JsObj ℤ) (v : JudgeVote) :
    applyVoteInt totals v =
      v.scores.foldl
        (fun o p =>
          if jsHas o p.1 ∧ p.2.isFinite then jsAdd o p.1 p.2.val else o)
        ((v.rankedIds.filter (fun id => jsHas totals id)).enum.foldl
          (fun o p =>
            jsAdd o p.2
              (max (((v.rankedIds.filter (fun id => jsHas totals id)).length : ℤ) -
                  (p.1 : ℤ) - 1) 0))
          totals) := rfl

theorem aggregateVotes_def (votes : List JudgeVote)
    (cands : List CandidateAnswer) :
    aggregateVotes votes cands =
      match (aggRanking (aggTotals votes cands)).head? with
      | some e =>
        some ⟨e.candidateId, aggTotals votes cands,
              aggRanking (aggTotals votes cands)⟩
      | none =>
        cands.head?.map
          (fun c => ⟨c.id, aggTotals votes cands,
                     aggRanking (aggTotals votes cands)⟩) := rfl

/-! ## Relating the faithful aggregation to its integer reference -/

theorem liftObj_keys (o : JsObj ℤ) :
    (liftObj o).map Prod.fst = o.map Prod.fst := by
  unfold liftObj
  rw [List.map_map]
  rfl

theorem jsHas_liftObj (o : JsObj ℤ) (k : String) :
    jsHas (liftObj o) k = jsHas o k := by
  rw [jsHas_eq_decide, jsHas_eq_decide, liftObj_keys]

theorem jsGet_liftObj (o : JsObj ℤ) (k : String) :
    jsGet (liftObj o) k = (jsGet o k).map TVal.int := by
  induction o with
  | nil => rfl
  | cons p o ih =>
    show jsGet ((p.1, TVal.int p.2) :: liftObj o) k = _
    rw [jsGet_cons, jsGet_cons]
    by_cases h : p.1 = k
    · rw [if_pos h, if_pos h]
      rfl
    · rw [if_neg h, if_neg h, ih]

theorem jsIn_not_proto (o : JsObj α) (k : String)
    (h : k ∉ OBJECT_PROTO_KEYS) : jsIn o k = jsHas o k := by
  unfold jsIn
  rw [decide_eq_false h, Bool.or_false]

theorem jsPlusAssign_lift (o : JsObj ℤ) (k : String) (v : ℤ)
    (h : jsHas o k = true) :
    jsPlusAssign (liftObj o) k v = liftObj (jsAdd o k v) := by
  unfold jsPlusAssign
  rw [jsHas_liftObj, h, if_pos rfl]
  unfold liftObj jsAdd
  rw [List.map_map, List.map_map]
  apply List.map_congr_left
  intro p _
  by_cases hpk : p.1 = k
  · simp [hpk, tvalAddNum]
  · simp [hpk]

theorem foldl_jsPlusAssign_lift (L : List (Nat × String)) (f : Nat → ℤ)
    (a : JsObj ℤ) (hL : ∀ p ∈ L, jsHas a p.2 = true) :
    L.foldl (fun o p => jsPlusAssign o p.2 (f p.1)) (liftObj a) =
      liftObj (L.foldl (fun o p => jsAdd o p.2 (f p.1)) a) := by
  induction L generalizing a with
  | nil => rfl
  | cons p L ih =>
    rw [List.foldl_cons, List.foldl_cons,
        jsPlusAssign_lift a p.2 (f p.1) (hL p (List.mem_cons_self p L))]
    exact ih (jsAdd a p.2 (f p.1))
      (fun q hq => (jsHas_jsAdd a p.2 q.2 (f p.1)).trans
        (hL q (List.mem_cons_of_mem p hq)))

theorem scores_foldl_lift (L : List (String × NumV)) (a : JsObj ℤ)
    (hclean : ∀ p ∈ L, p.1 ∉ OBJECT_PROTO_KEYS) :
    L.foldl
        (fun o p =>
          if jsIn o p.1 ∧ p.2.isFinite then jsPlusAssign o p.1 p.2.val else o)
        (liftObj a) =
      liftObj
        (L.foldl
          (fun o p =>
            if jsHas o p.1 ∧ p.2.isFinite then jsAdd o p.1 p.2.val else o)
          a) := by
  induction L generalizing a with
  | nil => rfl
  | cons p L ih =>
    rw [List.foldl_cons, List.foldl_cons]
    have hin : jsIn (liftObj a) p.1 = jsHas a p.1 := by
      rw [jsIn_not_proto _ _ (hclean p (List.mem_cons_self p L)), jsHas_liftObj]
    by_cases hc : jsHas a p.1 = true ∧ p.2.isFinite = true
    · rw [if_pos ⟨hin.trans hc.1, hc.2⟩, if_pos hc,
          jsPlusAssign_lift a p.1 p.2.val hc.1]
      exact ih (jsAdd a p.1 p.2.val)
        (fun q hq => hclean q (List.mem_cons_of_mem p hq))
    · rw [if_neg (fun hcon => hc ⟨hin.symm.trans hcon.1, hcon.2⟩), if_neg hc]
      exact ih a (fun q hq => hclean q (List.mem_cons_of_mem p hq))

theorem jsAdd_comm (o : JsObj ℤ) (k k' : String) (v v' : ℤ) :
    jsAdd (jsAdd o k v) k' v' = jsAdd (jsAdd o k' v') k v := by
  unfold jsAdd
  rw [List.map_map, List.map_map]
  apply List.map_congr_left
  intro p _
  by_cases h : p.1 = k
  · by_cases h' : p.1 = k'
    · have hkk : k = k' := h.symm.trans h'
      simp [h, h', hkk, add_right_comm]
    · have hkk : ¬(k = k') := fun he => h' (h.trans he)
      simp [h, h', hkk]
  · by_cases h' : p.1 = k'
    · have hkk : ¬(k' = k) := fun he => h (h'.trans he)
      simp [h, h', hkk]
    · simp [h, h']

theorem jsHas_scores_step (a : JsObj ℤ) (z : String × NumV) (k : String) :
    jsHas (if jsHas a z.1 ∧ z.2.isFinite then jsAdd a z.1 z.2.val else a) k =
      jsHas a k := by
  by_cases h : jsHas a z.1 = true ∧ z.2.isFinite = true
  · rw [if_pos h, jsHas_jsAdd]
  · rw [if_neg h]

theorem scores_step_swap (a : JsObj ℤ) (x y : String × NumV) :
    (if jsHas (if jsHas a y.1 ∧ y.2.isFinite then jsAdd a y.1 y.2.val else a)
          x.1 ∧ x.2.isFinite then
       jsAdd (if jsHas a y.1 ∧ y.2.isFinite then jsAdd a y.1 y.2.val else a)
         x.1 x.2.val
     else if jsHas a y.1 ∧ y.2.isFinite then jsAdd a y.1 y.2.val else a) =
    (if jsHas (if jsHas a x.1 ∧ x.2.isFinite then jsAdd a x.1 x.2.val else a)
          y.1 ∧ y.2.isFinite then
       jsAdd (if jsHas a x.1 ∧ x.2.isFinite then jsAdd a x.1 x.2.val else a)
         y.1 y.2.val
     else if jsHas a x.1 ∧ x.2.isFinite then jsAdd a x.1 x.2.val else a) := by
  by_cases hx : jsHas a x.1 = true ∧ x.2.isFinite = true
  · by_cases hy : jsHas a y.1 = true ∧ y.2.isFinite = true
    · rw [if_pos hy, if_pos hx,
          if_pos (⟨(jsHas_jsAdd a y.1 x.1 y.2.val).trans hx.1, hx.2⟩ :
            jsHas (jsAdd a y.1 y.2.val) x.1 = true ∧ x.2.isFinite = true),
          if_pos (⟨(jsHas_jsAdd a x.1 y.1 x.2.val).trans hy.1, hy.2⟩ :
            jsHas (jsAdd a x.1 x.2.val) y.1 = true ∧ y.2.isFinite = true)]
      exact jsAdd_comm a y.1 x.1 y.2.val x.2.val
    · rw [if_neg hy, if_pos hx,
          if_neg (fun hcon =>
            hy ⟨(jsHas_jsAdd a x.1 y.1 x.2.val).symm.trans hcon.1, hcon.2⟩)]
  · by_cases hy : jsHas a y.1 = true ∧ y.2.isFinite = true
    · rw [if_pos hy, if_neg hx,
          if_neg (fun hcon =>
            hx ⟨(jsHas_jsAdd a y.1 x.1 y.2.val).symm.trans hcon.1, hcon.2⟩),
          if_pos hy]
    · rw [if_neg hy, if_neg hx, if_neg hy]

theorem scores_foldl_perm (L L' : List (String × NumV)) (hp : List.Perm L L')
    (a : JsObj ℤ) :
    L.foldl
        (fun o p =>
          if jsHas o p.1 ∧ p.2.isFinite then jsAdd o p.1 p.2.val else o) a =
      L'.foldl
        (fun o p =>
          if jsHas o p.1 ∧ p.2.isFinite then jsAdd o p.1 p.2.val else o) a := by
  induction hp generalizing a with
  | nil => rfl
  | cons x _ ih =>
    rw [List.foldl_cons, List.foldl_cons]
    exact ih _
  | swap x y l =>
    simp only [List.foldl_cons]
    rw [scores_step_swap]
  | trans _ _ ih1 ih2 => exact (ih1 a).trans (ih2 a)

theorem applyVote_lift (t : JsObj ℤ) (v : JudgeVote) (hv : CleanVote v) :
    applyVote (liftObj t) v = liftObj (applyVoteInt t v) := by
  rw [applyVote_def, applyVoteInt_def]
  have hfilt : v.rankedIds.filter (fun id => jsIn (liftObj t) id) =
      v.rankedIds.filter (fun id => jsHas t id) := by
    apply List.filter_congr
    intro id hid
    rw [jsIn_not_proto _ _ (hv.1 id hid), jsHas_liftObj]
  rw [hfilt]
  have hborda :
      (v.rankedIds.filter (fun id => jsHas t id)).enum.foldl
          (fun o p =>
            jsPlusAssign o p.2
              (max (((v.rankedIds.filter (fun id => jsHas t id)).length : ℤ) -
                  (p.1 : ℤ) - 1) 0))
          (liftObj t) =
        liftObj
          ((v.rankedIds.filter (fun id => jsHas t id)).enum.foldl
            (fun o p =>
              jsAdd o p.2
                (max (((v.rankedIds.filter (fun id => jsHas t id)).length : ℤ) -
                    (p.1 : ℤ) - 1) 0))
            t) := by
    apply foldl_jsPlusAssign_lift _
      (fun i =>
        max (((v.rankedIds.filter (fun id => jsHas t id)).length : ℤ) -
          (i : ℤ) - 1) 0) t
    intro p hp
    have hmem : p.2 ∈ v.rankedIds.filter (fun id => jsHas t id) := by
      have h1 := List.enum_map_snd (v.rankedIds.filter (fun id => jsHas t id))
      exact h1 ▸ List.mem_map_of_mem Prod.snd hp
    exact (List.mem_filter.mp hmem).2
  rw [hborda]
  rw [scores_foldl_lift (jsEntries v.scores) _
        (fun p hp => hv.2 p ((jsEntries_perm v.scores).mem_iff.mp hp))]
  rw [scores_foldl_perm (jsEntries v.scores) v.scores (jsEntries_perm v.scores)]

theorem foldl_applyVote_lift (votes : List JudgeVote) (a : JsObj ℤ)
    (hclean : ∀ v ∈ votes, CleanVote v) :
    votes.foldl applyVote (liftObj a) = liftObj (votes.foldl applyVoteInt a) := by
  induction votes generalizing a with
  | nil => rfl
  | cons v votes ih =>
    rw [List.foldl_cons, List.foldl_cons,
        applyVote_lift a v (hclean v (List.mem_cons_self v votes))]
    exact ih _ (fun w hw => hclean w (List.mem_cons_of_mem v hw))

theorem jsInsert_lift (o : JsObj ℤ) (k : String) (v : ℤ) :
    jsInsert (liftObj o) k (TVal.int v) = liftObj (jsInsert o k v) := by
  unfold jsInsert
  have hany : (liftObj o).any (fun p => p.1 == k) = o.any (fun p => p.1 == k) :=
    jsHas_liftObj o k
  rw [hany]
  by_cases h : o.any (fun p => p.1 == k) = true
  · rw [if_pos h, if_pos h]
    unfold liftObj
    rw [List.map_map, List.map_map]
    apply List.map_congr_left
    intro p _
    by_cases hpk : p.1 = k
    · simp [hpk]
    · simp [hpk]
  · rw [if_neg h, if_neg h]
    unfold liftObj
    rw [List.map_append]
    rfl

theorem foldl_jsInsert_lift (l : List (String × ℤ)) (a : JsObj ℤ) :
    l.foldl (fun o p => jsInsert o p.1 (TVal.int p.2)) (liftObj a) =
      liftObj (l.foldl (fun o p => jsInsert o p.1 p.2) a) := by
  induction l generalizing a with
  | nil => rfl
  | cons p l ih =>
    rw [List.foldl_cons, List.foldl_cons, jsInsert_lift]
    exact ih _

theorem jsFromEntries_lift (l : List (String × ℤ)) :
    jsFromEntries (l.map (fun p => (p.1, TVal.int p.2))) =
      liftObj (jsFromEntries l) := by
  unfold jsFromEntries
  rw [List.foldl_map]
  exact foldl_jsInsert_lift l []

theorem aggTotals_lift (votes : List JudgeVote) (cands : List CandidateAnswer)
    (hclean : ∀ v ∈ votes, CleanVote v) :
    aggTotals votes cands = liftObj (aggTotalsInt votes cands) := by
  unfold aggTotals aggTotalsInt
  have hinit : jsFromEntries (cands.map (fun c => (c.id, TVal.int 0))) =
      liftObj (jsFromEntries (cands.map (fun c => (c.id, (0 : ℤ))))) := by
    have h2 := jsFromEntries_lift (cands.map (fun c => (c.id, (0 : ℤ))))
    rw [List.map_map] at h2
    exact h2
  rw [hinit]
  exact foldl_applyVote_lift votes _ hclean

theorem jsSortInsert_map {β : Type} (f : α → β) (le : α → α → Bool)
    (le2 : β → β → Bool) (hcomp : ∀ x y, le2 (f x) (f y) = le x y)
    (a : α) (l : List α) :
    jsSortInsert le2 (f a) (l.map f) = (jsSortInsert le a l).map f := by
  induction l with
  | nil => rfl
  | cons b l ih =>
    rw [List.map_cons, jsSortInsert, jsSortInsert, hcomp]
    by_cases h : le a b = true
    · rw [if_pos h, if_pos h, List.map_cons, List.map_cons]
    · rw [if_neg h, if_neg h, List.map_cons, ih]

theorem jsStableSort_map {β : Type} (f : α → β) (le : α → α → Bool)
    (le2 : β → β → Bool) (hcomp : ∀ x y, le2 (f x) (f y) = le x y)
    (l : List α) :
    jsStableSort le2 (l.map f) = (jsStableSort le l).map f := by
  induction l with
  | nil => rfl
  | cons a l ih =>
    rw [List.map_cons, jsStableSort, jsStableSort, ih]
    exact jsSortInsert_map f le le2 hcomp a _

theorem jsEntries_liftObj (o : JsObj ℤ) :
    jsEntries (liftObj o) = (jsEntries o).map (fun p => (p.1, TVal.int p.2)) := by
  unfold jsEntries liftObj
  rw [List.filter_map, List.filter_map,
      jsStableSort_map (fun (p : String × ℤ) => (p.1, TVal.int p.2))
        (fun p q => ((jsArrayIndex p.1).getD 0) ≤ ((jsArrayIndex q.1).getD 0))
        (fun p q => ((jsArrayIndex p.1).getD 0) ≤ ((jsArrayIndex q.1).getD 0))
        (fun _ _ => rfl),
      List.map_append]
  rfl

theorem aggRanking_lift (t : JsObj ℤ) :
    aggRanking (liftObj t) = (aggRankingInt t).map liftRE := by
  unfold aggRanking aggRankingInt
  rw [jsEntries_liftObj, List.map_map]
  rw [show ((fun (p : String × TVal) => (⟨p.1, p.2⟩ : RankEntry)) ∘
        (fun (p : String × ℤ) => (p.1, TVal.int p.2))) =
      (liftRE ∘ fun (p : String × ℤ) => (⟨p.1, p.2⟩ : RankEntryInt)) from rfl]
  rw [← List.map_map]
  exact jsStableSort_map liftRE
    (fun a b => b.score ≤ a.score)
    (fun a b => jsSortCompare a b ≤ 0)
    (fun x y => by
      show decide (y.score - x.score ≤ 0) = decide (y.score ≤ x.score)
      exact decide_eq_decide.mpr sub_nonpos) _

theorem aggregateVotes_lift (votes : List JudgeVote)
    (cands : List CandidateAnswer) (hclean : ∀ v ∈ votes, CleanVote v) :
    aggregateVotes votes cands =
      match (aggRankingInt (aggTotalsInt votes cands)).head? with
      | some e =>
        some ⟨e.candidateId, liftObj (aggTotalsInt votes cands),
              (aggRankingInt (aggTotalsInt votes cands)).map liftRE⟩
      | none =>
        cands.head?.map
          (fun c => ⟨c.id, liftObj (aggTotalsInt votes cands),
                     (aggRankingInt (aggTotalsInt votes cands)).map liftRE⟩) := by
  rw [aggregateVotes_def, aggTotals_lift votes cands hclean, aggRanking_lift,
      List.head?_map]
  cases hh : (aggRankingInt (aggTotalsInt votes cands)).head? with
  | some e => rfl
  | none => rfl

/-! ## Structural facts about the faithful aggregation -/

theorem aggregateVotes_isSome (votes : List JudgeVote)
    (cands : List CandidateAnswer) (h : cands ≠ []) :
    (aggregateVotes votes cands).isSome = true := by
  rw [aggregateVotes_def]
  cases hh : (aggRanking (aggTotals votes cands)).head? with
  | some e => rfl
  | none =>
    match cands, h with
    | c :: cs, _ => rfl

theorem scores_foldl_nil (L : List (String × NumV)) :
    (∀ p ∈ L, p.1 ∉ OBJECT_PROTO_KEYS) →
    L.foldl
        (fun o p =>
          if jsIn o p.1 ∧ p.2.isFinite then jsPlusAssign o p.1 p.2.val else o)
        ([] : JsObj TVal) = [] := by
  induction L with
  | nil => intro _; rfl
  | cons p L ih =>
    intro hcl
    rw [List.foldl_cons]
    have hin : jsIn ([] : JsObj TVal) p.1 = false := by
      rw [jsIn_not_proto _ _ (hcl p (List.mem_cons_self p L))]
      rfl
    rw [if_neg (fun hc => Bool.false_ne_true (hin ▸ hc.1))]
    exact ih (fun q hq => hcl q (List.mem_cons_of_mem p hq))

theorem applyVote_nil_of_clean (v : JudgeVote) (hv : CleanVote v) :
    applyVote ([] : JsObj TVal) v = [] := by
  rw [applyVote_def]
  have h1 : v.rankedIds.filter (fun id => jsIn ([] : JsObj TVal) id) = [] := by
    apply List.filter_eq_nil_iff.mpr
    intro id hid
    rw [jsIn_not_proto _ _ (hv.1 id hid)]
    exact fun h => Bool.false_ne_true h
  rw [h1]
  exact scores_foldl_nil (jsEntries v.scores)
    (fun p hp => hv.2 p ((jsEntries_perm v.scores).mem_iff.mp hp))

theorem foldl_applyVote_nil (votes : List JudgeVote) :
    (∀ v ∈ votes, CleanVote v) →
    votes.foldl applyVote ([] : JsObj TVal) = [] := by
  induction votes with
  | nil => intro _; rfl
  | cons v votes ih =>
    intro hclean
    rw [List.foldl_cons,
        applyVote_nil_of_clean v (hclean v (List.mem_cons_self v votes))]
    exact ih (fun w hw => hclean w (List.mem_cons_of_mem v hw))

theorem aggregateVotes_nil_of_clean (votes : List JudgeVote)
    (hclean : ∀ v ∈ votes, CleanVote v) :
    aggregateVotes votes [] = none := by
  rw [aggregateVotes_def]
  have ht : aggTotals votes [] = [] := foldl_applyVote_nil votes hclean
  rw [ht]
  rfl

/-! ## Claim C1 -/

/-- Claim C1, amended.  For every list of ballots whose ranked ids and
score keys avoid the inherited `Object.prototype` property names
(`CleanVote`) and every list of candidates with distinct ids,
`aggregateVotes` folds each ballot into the per-candidate totals as the
spec describes: the ballot's `rankedIds` are filtered to the ids present
in the candidate set preserving order; in the filtered list of length `k`
the candidate at 0-based position `i` receives `max(k - i - 1, 0)` points;
independently, every entry of the ballot's `scores` map whose key is a
known candidate id and whose value is a finite number is added to the same
total.  In particular, in Scenario B (judge 1 ranks `[a, b]` with no
scores; judge 2 ranks `[b, a]` with `scores = {b: 2}`) the result
satisfies `totals.a = 1 < 3 = totals.b` and `winnerId = "b"`.  Without the
cleanliness restriction the characterisation is false of the source: its
`id in totals` filter also admits prototype-chain keys such as
`"toString"`, inflating `k` (see the counterexample). -/
theorem claim_C1_amended (votes : List JudgeVote)
    (cands : List CandidateAnswer)
    (hnd : (cands.map CandidateAnswer.id).Nodup)
    (hclean : ∀ v ∈ votes, CleanVote v) :
    (∀ cid ∈ cands.map CandidateAnswer.id,
        jsGet (aggTotals votes cands) cid =
          some (.int (specTotal (cands.map CandidateAnswer.id) votes cid))) ∧
    (∃ r, aggregateVotes scenarioBVotes scenarioBCandidates = some r ∧
        jsGet r.totals "a" = some (.int 1) ∧
        jsGet r.totals "b" = some (.int 3) ∧
        (1 : ℤ) < 3 ∧ r.winnerId = "b") := by
  constructor
  · intro cid hcid
    rw [aggTotals_lift votes cands hclean, jsGet_liftObj,
        jsGet_aggTotalsInt_spec votes cands hnd cid hcid]
    rfl
  · exact ⟨⟨"b", [("a", .int 1), ("b", .int 3)],
        [⟨"b", .int 3⟩, ⟨"a", .int 1⟩]⟩, by decide,
      by decide, by decide, by decide, rfl⟩

/-- Witness for C1 (amended): the characterisation evaluated at Scenario B
for candidate `a`. -/
theorem claim_C1_witness :
    jsGet (aggTotals scenarioBVotes scenarioBCandidates) "a" =
      some (.int (specTotal (scenarioBCandidates.map CandidateAnswer.id)
        scenarioBVotes "a")) :=
  (claim_C1_amended scenarioBVotes scenarioBCandidates (by decide)
    (by decide)).1 "a" (by decide)

/-- Claim C1 counterexample.  A ballot ranking `["a", "toString"]` against
the single candidate `"a"`: the source's `in` filter keeps the inherited
key `"toString"`, so the filtered list has length `2` and `"a"` earns
`max(2 - 0 - 1, 0) = 1` point, while the claim's characterisation filters
to the candidate set, giving length `1` and `0` points — the totals differ
from the claimed value at this concrete input. -/
theorem claim_C1_counterexample :
    jsGet (aggTotals [protoBallot] [testCandidate "a"]) "a" =
      some (.int 1) ∧
    specTotal ([testCandidate "a"].map CandidateAnswer.id) [protoBallot]
      "a" = 0 ∧
    jsGet (aggTotals [protoBallot] [testCandidate "a"]) "a" ≠
      some (.int (specTotal ([testCandidate "a"].map CandidateAnswer.id)
        [protoBallot] "a")) :=
  ⟨by decide, by decide, by decide⟩

/-! ## Claim C4 -/

/-- Claim C4, amended.  `aggregateVotes` returns a complete `VotingResult`
for every ballot list and every *non-empty* candidate list.  On the empty
candidate list it raises instead of returning — but only for ballot lists
that smuggle no `Object.prototype` key past the `in` guard (`CleanVote`):
then the ranking is empty and the `candidates[0].id` fallback reads `.id`
of `undefined`, a `TypeError` modelled by `none`.  A dirty ballot creates
a totals entry for the inherited key, and the source happily returns a
result whose `winnerId` is not a candidate at all — the last conjunct
shows `winnerId = "toString"` for `protoBallot` against zero
candidates. -/
theorem claim_C4_amended (votes : List JudgeVote)
    (cands : List CandidateAnswer) (h : cands ≠ [])
    (hclean : ∀ v ∈ votes, CleanVote v) :
    (aggregateVotes votes cands).isSome = true ∧
      aggregateVotes votes [] = none ∧
      (aggregateVotes [protoBallot] []).map VotingResult.winnerId =
        some "toString" :=
  ⟨aggregateVotes_isSome votes cands h,
   aggregateVotes_nil_of_clean votes hclean, by decide⟩

/-- Witness for C4 (amended): a singleton candidate list and the empty
ballot list. -/
theorem claim_C4_witness :
    (aggregateVotes [] [testCandidate "solo"]).isSome = true ∧
      aggregateVotes [] [] = none ∧
      (aggregateVotes [protoBallot] []).map VotingResult.winnerId =
        some "toString" :=
  claim_C4_amended [] [testCandidate "solo"] (by decide) (by decide)

/-- Claim C4 counterexample.  At the concrete input `votes = []`,
`candidates = []` the function does not return a `VotingResult`: the
source evaluates `candidates[0].id` with `candidates[0] = undefined` and
throws a `TypeError` (modelled by `none`), refuting the claim that
`aggregateVotes` is total "including the empty candidate list". -/
theorem claim_C4_counterexample :
    aggregateVotes ([] : List JudgeVote) ([] : List CandidateAnswer) =
      none := rfl

/-! ## Claim C2 -/

/-- All ballots folded over an all-empty ballot list leave the totals
object unchanged. -/
theorem foldl_applyVoteInt_of_all_empty (votes : List JudgeVote)
    (hv : ∀ v ∈ votes, v.rankedIds = [] ∧ v.scores = []) (t : JsObj ℤ) :
    votes.foldl applyVoteInt t = t := by
  induction votes generalizing t with
  | nil => rfl
  | cons v votes ih =>
    rw [List.foldl_cons,
        applyVoteInt_of_empty t v (hv v (List.mem_cons_self v votes)).1
          (hv v (List.mem_cons_self v votes)).2]
    exact ih (fun w hw => hv w (List.mem_cons_of_mem v hw)) t

/-- Claim C2, amended.  For every ballot list avoiding the inherited
`Object.prototype` keys (`CleanVote` — without this a score entry such as
`{toString: 2}` passes the source's `in` guard and creates a non-candidate
totals entry) and every non-empty candidate list with distinct ids,
`aggregateVotes` returns a `VotingResult` whose totals object has exactly
one entry per candidate id, whose ranking is a permutation of all
candidate ids with integer scores read off the totals, sorted descending
by the source's comparator, and whose `winnerId` is a candidate id.  The
original claim's final clause — with all ballots empty the winner is the
*first candidate in roster order* — additionally needs no candidate id to
be a JS array-index-like string (true of the UUIDs used by the pipeline);
without it, `Object.entries` enumerates array-index keys first in
ascending numeric order, and the winner is the first id in that
enumeration instead (see the counterexample). -/
theorem claim_C2_amended (votes : List JudgeVote)
    (cands : List CandidateAnswer)
    (hnd : (cands.map CandidateAnswer.id).Nodup) (hne : cands ≠ [])
    (hclean : ∀ v ∈ votes, CleanVote v) :
    ∃ r, aggregateVotes votes cands = some r ∧
      r.totals.map Prod.fst = cands.map CandidateAnswer.id ∧
      List.Perm (r.ranking.map RankEntry.candidateId)
        (cands.map CandidateAnswer.id) ∧
      (∀ e ∈ r.ranking, ∃ n : ℤ, e.score = TVal.int n) ∧
      (∀ e ∈ r.ranking, jsGet r.totals e.candidateId = some e.score) ∧
      r.ranking.Pairwise (fun a b => jsSortCompare a b ≤ 0) ∧
      r.winnerId ∈ cands.map CandidateAnswer.id ∧
      ((∀ c ∈ cands, jsArrayIndex c.id = none) →
        (∀ v ∈ votes, v.rankedIds = [] ∧ v.scores = []) →
        ∃ c0, cands.head? = some c0 ∧ r.winnerId = c0.id) := by
  obtain ⟨e, hhead⟩ := aggRankingInt_head_some votes cands hne
  have hr : aggregateVotes votes cands =
      some ⟨e.candidateId, liftObj (aggTotalsInt votes cands),
            (aggRankingInt (aggTotalsInt votes cands)).map liftRE⟩ := by
    rw [aggregateVotes_lift votes cands hclean, hhead]
  have hkeys := aggTotalsInt_keys votes cands hnd
  have hkeysnd : ((aggTotalsInt votes cands).map Prod.fst).Nodup := by
    rw [hkeys]; exact hnd
  have hperm : List.Perm
      ((aggRankingInt (aggTotalsInt votes cands)).map RankEntryInt.candidateId)
      (cands.map CandidateAnswer.id) := by
    unfold aggRankingInt
    refine ((jsStableSort_perm _ _).map RankEntryInt.candidateId).trans ?_
    rw [List.map_map]
    have h2 : List.Perm
        ((jsEntries (aggTotalsInt votes cands)).map Prod.fst)
        ((aggTotalsInt votes cands).map Prod.fst) :=
      (jsEntries_perm (aggTotalsInt votes cands)).map Prod.fst
    rw [hkeys] at h2
    exact h2
  have hmemrank : ∀ e2 ∈ aggRankingInt (aggTotalsInt votes cands),
      jsGet (aggTotalsInt votes cands) e2.candidateId = some e2.score := by
    intro e2 he2
    unfold aggRankingInt at he2
    have h1 := (jsStableSort_perm _ _).mem_iff.mp he2
    obtain ⟨p, hp, rfl⟩ := List.mem_map.mp h1
    have hp2 : p ∈ aggTotalsInt votes cands :=
      (jsEntries_perm (aggTotalsInt votes cands)).mem_iff.mp hp
    exact jsGet_of_mem_nodup _ hkeysnd p hp2
  refine ⟨⟨e.candidateId, liftObj (aggTotalsInt votes cands),
          (aggRankingInt (aggTotalsInt votes cands)).map liftRE⟩, hr,
    ?_, ?_, ?_, ?_, ?_, ?_, ?_⟩
  · rw [liftObj_keys]
    exact hkeys
  · rw [List.map_map]
    exact hperm
  · intro e2 he2
    obtain ⟨e3, _, rfl⟩ := List.mem_map.mp he2
    exact ⟨e3.score, rfl⟩
  · intro e2 he2
    obtain ⟨e3, he3, rfl⟩ := List.mem_map.mp he2
    show jsGet (liftObj (aggTotalsInt votes cands)) e3.candidateId =
      some (liftRE e3).score
    rw [jsGet_liftObj, hmemrank e3 he3]
    rfl
  · rw [List.pairwise_map]
    have hpw := jsStableSort_pairwise
      (fun (a b : RankEntryInt) => decide (b.score ≤ a.score))
      (fun a b => by
        rcases Int.le_total b.score a.score with h | h
        · exact Or.inl (decide_eq_true h)
        · exact Or.inr (decide_eq_true h))
      (fun a b c h1 h2 =>
        decide_eq_true
          (le_trans (of_decide_eq_true h2) (of_decide_eq_true h1)))
      ((jsEntries (aggTotalsInt votes cands)).map
        (fun p => (⟨p.1, p.2⟩ : RankEntryInt)))
    exact hpw.imp (fun h => sub_nonpos.mpr (of_decide_eq_true h))
  · have he : e ∈ aggRankingInt (aggTotalsInt votes cands) :=
      List.mem_of_mem_head? hhead
    exact hperm.mem_iff.mp
      (List.mem_map.mpr ⟨e, he, rfl⟩)
  · intro hnoidx hempty
    match hc0 : cands.head? with
    | some c0 =>
      refine ⟨c0, rfl, ?_⟩
      have htot : aggTotalsInt votes cands =
          cands.map (fun c => (c.id, (0 : ℤ))) := by
        unfold aggTotalsInt
        rw [aggTotalsInt_init_eq cands hnd]
        exact foldl_applyVoteInt_of_all_empty votes hempty _
      have hbase : (jsEntries (aggTotalsInt votes cands)).map
          (fun p => (⟨p.1, p.2⟩ : RankEntryInt)) =
            cands.map (fun c => (⟨c.id, 0⟩ : RankEntryInt)) := by
        rw [htot, jsEntries_of_noIndex _ ?_, List.map_map]
        · rfl
        · intro p hp
          obtain ⟨c, hc, rfl⟩ := List.mem_map.mp hp
          exact hnoidx c hc
      have hallzero : ∀ x ∈ aggRankingInt (aggTotalsInt votes cands),
          x.score = 0 := by
        intro x hx
        unfold aggRankingInt at hx
        have hx2 := (jsStableSort_perm _ _).mem_iff.mp hx
        rw [hbase] at hx2
        obtain ⟨c, _, rfl⟩ := List.mem_map.mp hx2
        rfl
      have hfix : aggRankingInt (aggTotalsInt votes cands) =
          cands.map (fun c => (⟨c.id, 0⟩ : RankEntryInt)) := by
        have h1 : aggRankingInt (aggTotalsInt votes cands) =
            (aggRankingInt (aggTotalsInt votes cands)).filter
              (fun x => x.score == 0) := by
          refine (List.filter_eq_self.mpr ?_).symm
          intro x hx
          simp [hallzero x hx]
        rw [h1]
        unfold aggRankingInt
        rw [filter_jsStableSort _ _ ?_, hbase]
        · refine List.filter_eq_self.mpr ?_
          intro x hx
          obtain ⟨c, _, rfl⟩ := List.mem_map.mp hx
          simp
        · intro a b ha hb
          have ha2 : a.score = 0 := by simpa using ha
          have hb2 : b.score = 0 := by simpa using hb
          rw [ha2, hb2]
          simp
      have hhead2 : (aggRankingInt (aggTotalsInt votes cands)).head? =
          some ⟨c0.id, 0⟩ := by
        rw [hfix, List.head?_map, hc0]
        rfl
      rw [hhead] at hhead2
      simp only [Option.some.injEq] at hhead2
      rw [hhead2]
    | none =>
      exact absurd (List.head?_eq_none_iff.mp hc0) hne

/-- Witness for C2 (amended): Scenario B. -/
theorem claim_C2_witness :
    (aggregateVotes scenarioBVotes scenarioBCandidates).isSome = true := by
  obtain ⟨r, hr, -⟩ :=
    claim_C2_amended scenarioBVotes scenarioBCandidates (by decide)
      (by decide) (by decide)
  rw [hr]
  rfl

/-- Claim C2 counterexample.  With candidate ids `"3"` and `"0"` (distinct,
roster order `["3", "0"]`) and no ballots, every total is `0`, yet
`winnerId = "0"`, not the first candidate in roster order `"3"`:
`Object.entries` enumerates the array-index-like keys in ascending numeric
order, refuting the claim's "the winner is the first candidate in roster
order" clause. -/
theorem claim_C2_counterexample :
    (aggregateVotes ([] : List JudgeVote)
        [testCandidate "3", testCandidate "0"]).map VotingResult.winnerId =
      some "0" ∧
    [testCandidate "3", testCandidate "0"].head?.map CandidateAnswer.id =
      some "3" ∧
    ("0" : String) ≠ "3" := by
  exact ⟨by decide, by decide, by decide⟩

/-! ## Claim C3 -/

/-- Mapping key/score pairs into rank entries commutes with filtering on
the score. -/
theorem map_toRE_filter (ids : List String) (g : String → ℤ) (q : ℤ) :
    (((ids.map (fun k => (⟨k, g k⟩ : RankEntryInt))).filter
        (fun e => e.score == q)).map RankEntryInt.candidateId) =
      ids.filter (fun k => g k == q) := by
  induction ids with
  | nil => rfl
  | cons k ids ih =>
    rw [List.map_cons]
    by_cases h : (g k == q) = true
    · rw [List.filter_cons, if_pos h, List.map_cons, ih,
          List.filter_cons, if_pos h]
    · rw [List.filter_cons, if_neg h, ih, List.filter_cons, if_neg h]

/-- Filtering the id list is mapping the id over the filtered candidate
list. -/
theorem filter_map_id (cands : List CandidateAnswer) (P : String → Bool) :
    (cands.map CandidateAnswer.id).filter P =
      (cands.filter (fun c => P c.id)).map CandidateAnswer.id := by
  induction cands with
  | nil => rfl
  | cons c cands ih =>
    rw [List.map_cons]
    by_cases h : P c.id = true
    · rw [List.filter_cons_of_pos h, ih, List.filter_cons, if_pos h,
          List.map_cons]
    · rw [List.filter_cons_of_neg h, ih, List.filter_cons, if_neg h]

/-- The integer-restricted reference ranking lists tied candidates in
roster order when no candidate id is an array-index-like string: filtering
the reference ranking to any score value `q` yields exactly the candidates
with total `q`, in roster order. -/
theorem aggRankingInt_filter_tie (votes : List JudgeVote)
    (cands : List CandidateAnswer)
    (hnd : (cands.map CandidateAnswer.id).Nodup)
    (hnoidx : ∀ c ∈ cands, jsArrayIndex c.id = none) (q : ℤ) :
    ((aggRankingInt (aggTotalsInt votes cands)).filter
        (fun e => e.score == q)).map RankEntryInt.candidateId =
      (cands.filter
          (fun c => jsGet (aggTotalsInt votes cands) c.id == some q)).map
        CandidateAnswer.id := by
  have hkeys := aggTotalsInt_keys votes cands hnd
  have hkeysnd : ((aggTotalsInt votes cands).map Prod.fst).Nodup := by
    rw [hkeys]; exact hnd
  have hgetmem : ∀ c ∈ cands,
      jsGet (aggTotalsInt votes cands) c.id =
        some ((jsGet (aggTotalsInt votes cands) c.id).getD 0) := by
    intro c hc
    have hk : c.id ∈ (aggTotalsInt votes cands).map Prod.fst := by
      rw [hkeys]
      exact List.mem_map_of_mem CandidateAnswer.id hc
    obtain ⟨p, hp, he⟩ := List.mem_map.mp hk
    rw [← he, jsGet_of_mem_nodup _ hkeysnd p hp]
    rfl
  have htot_eq : aggTotalsInt votes cands =
      (cands.map CandidateAnswer.id).map
        (fun k => (k, (jsGet (aggTotalsInt votes cands) k).getD 0)) := by
    have h1 := jsObj_eq_map (aggTotalsInt votes cands)
      (fun k => (jsGet (aggTotalsInt votes cands) k).getD 0)
      (fun p hp => by
        show (jsGet (aggTotalsInt votes cands) p.1).getD 0 = p.2
        rw [jsGet_of_mem_nodup _ hkeysnd p hp]
        rfl)
    rw [hkeys] at h1
    exact h1
  have h_entries : jsEntries (aggTotalsInt votes cands) =
      aggTotalsInt votes cands := by
    apply jsEntries_of_noIndex
    intro p hp
    have hpk : p.1 ∈ (aggTotalsInt votes cands).map Prod.fst :=
      List.mem_map_of_mem Prod.fst hp
    rw [hkeys] at hpk
    obtain ⟨c, hc, he⟩ := List.mem_map.mp hpk
    rw [← he]
    exact hnoidx c hc
  unfold aggRankingInt
  rw [filter_jsStableSort _ _ ?hcomp]
  case hcomp =>
    intro a b ha hb
    have ha2 : a.score = q := by simpa using ha
    have hb2 : b.score = q := by simpa using hb
    rw [ha2, hb2]
    simp
  rw [h_entries]
  conv_lhs => rw [htot_eq]
  rw [List.map_map]
  rw [show List.map
        ((fun (p : String × ℤ) => (⟨p.1, p.2⟩ : RankEntryInt)) ∘
          (fun k => (k, (jsGet (aggTotalsInt votes cands) k).getD 0)))
        (cands.map CandidateAnswer.id) =
      (cands.map CandidateAnswer.id).map
        (fun k => (⟨k, (jsGet (aggTotalsInt votes cands) k).getD 0⟩ :
          RankEntryInt)) from rfl]
  rw [map_toRE_filter]
  rw [filter_map_id]
  rw [List.filter_congr
        (fun c hc => by
          show ((jsGet (aggTotalsInt votes cands) c.id).getD 0 == q) =
            (jsGet (aggTotalsInt votes cands) c.id == some q)
          rw [hgetmem c hc]
          rfl)]

theorem tval_int_beq (s q : ℤ) : (TVal.int s == TVal.int q) = (s == q) := by
  by_cases h : s = q
  · rw [h, beq_self_eq_true, beq_self_eq_true]
  · rw [beq_eq_false_iff_ne.mpr (fun hc => h (by injection hc)),
        beq_eq_false_iff_ne.mpr h]

theorem option_tval_int_beq (n q : ℤ) :
    ((some (TVal.int n) : Option TVal) == some (TVal.int q)) =
      ((some n : Option ℤ) == some q) := by
  by_cases h : n = q
  · rw [h, beq_self_eq_true, beq_self_eq_true]
  · rw [beq_eq_false_iff_ne.mpr
          (fun hc => h (by injection hc with h2; injection h2)),
        beq_eq_false_iff_ne.mpr
          (fun hc => h (by injection hc))]

/-- Claim C3, amended.  For every ballot list avoiding the inherited
`Object.prototype` keys (`CleanVote` — without this the `in` guard admits
prototype-chain keys whose `+=` writes string-valued totals entries,
making the sort comparator inconsistent and the ES2019 order
implementation-defined) and every candidate list with distinct ids *none
of which is a JS array-index-like string* (true of the pipeline's UUIDs),
candidates with equal total scores appear in the ranking in the
candidates' original roster order: filtering the ranking to any score
value `q` yields exactly the candidates with total `q`, in roster order.
Without the array-index restriction the base enumeration order of
`Object.entries` differs from roster order and the original claim fails
(see the counterexample). -/
theorem claim_C3_amended (votes : List JudgeVote)
    (cands : List CandidateAnswer)
    (hnd : (cands.map CandidateAnswer.id).Nodup)
    (hclean : ∀ v ∈ votes, CleanVote v)
    (hnoidx : ∀ c ∈ cands, jsArrayIndex c.id = none) (q : ℤ) :
    ((aggRanking (aggTotals votes cands)).filter
        (fun e => e.score == TVal.int q)).map RankEntry.candidateId =
      (cands.filter
          (fun c => jsGet (aggTotals votes cands) c.id ==
            some (TVal.int q))).map CandidateAnswer.id := by
  rw [aggTotals_lift votes cands hclean, aggRanking_lift]
  rw [List.filter_map, List.map_map]
  rw [show ((fun (e : RankEntry) => e.score == TVal.int q) ∘ liftRE) =
        (fun (e : RankEntryInt) => e.score == q) from
      funext (fun e => tval_int_beq e.score q)]
  have hfc : cands.filter
        (fun c => jsGet (liftObj (aggTotalsInt votes cands)) c.id ==
          some (TVal.int q)) =
      cands.filter
        (fun c => jsGet (aggTotalsInt votes cands) c.id == some q) := by
    apply List.filter_congr
    intro c _
    rw [jsGet_liftObj]
    cases hg : jsGet (aggTotalsInt votes cands) c.id with
    | none => rfl
    | some n => exact option_tval_int_beq n q
  rw [hfc]
  exact aggRankingInt_filter_tie votes cands hnd hnoidx q

/-- Witness for C3 (amended): Scenario B, score value 3. -/
theorem claim_C3_witness :
    ((aggRanking (aggTotals scenarioBVotes scenarioBCandidates)).filter
        (fun e => e.score == TVal.int 3)).map RankEntry.candidateId =
      (scenarioBCandidates.filter
          (fun c => jsGet (aggTotals scenarioBVotes scenarioBCandidates)
              c.id == some (TVal.int 3))).map CandidateAnswer.id :=
  claim_C3_amended scenarioBVotes scenarioBCandidates (by decide)
    (by decide) (by decide) 3

/-- Claim C3 counterexample.  With candidate ids `"2"` and `"1"` (distinct,
roster order `["2", "1"]`) and no ballots, the two candidates are tied at
total `0`, yet the ranking lists `"1"` before `"2"` — not the roster
order — because `Object.entries` enumerates array-index-like keys in
ascending numeric order, refuting the claim as stated for arbitrary
distinct ids. -/
theorem claim_C3_counterexample :
    (aggregateVotes ([] : List JudgeVote)
        [testCandidate "2", testCandidate "1"]).map
        (fun r => (r.ranking.map RankEntry.candidateId,
                   jsGet r.totals "2", jsGet r.totals "1")) =
      some (["1", "2"], some (TVal.int 0), some (TVal.int 0)) ∧
    [testCandidate "2", testCandidate "1"].map CandidateAnswer.id =
      ["2", "1"] := by
  exact ⟨by decide, by decide⟩

/-! ## String non-emptiness helpers -/

theorem append_ne_empty (a b : String) (ha : 0 < a.length) :
    a ++ b ≠ "" := by
  intro he
  have h1 : (a ++ b).length = 0 := by rw [he]; rfl
  rw [String.length_append] at h1
  omega

theorem append3_ne_empty (a b c : String) (ha : 0 < a.length) :
    a ++ b ++ c ≠ "" := by
  intro he
  have h1 : (a ++ b ++ c).length = 0 := by rw [he]; rfl
  rw [String.length_append, String.length_append] at h1
  omega

theorem nullReadTypeError_ne (f : String) : nullReadTypeError f ≠ "" := by
  unfold nullReadTypeError
  exact append3_ne_empty _ _ _ (by decide)

theorem trimNotFunctionError_ne (f : String) :
    trimNotFunctionError f ≠ "" := by
  unfold trimNotFunctionError
  exact append3_ne_empty _ _ _ (by decide)

theorem jsOptFieldTrim_error_ne (json : JsValue) (field s : String)
    (h : jsOptFieldTrim json field = .error s) : s ≠ "" := by
  unfold jsOptFieldTrim at h
  split at h
  · injection h with h2
    rw [← h2]
    exact nullReadTypeError_ne field
  · split at h
    · simp at h
    · simp at h
    · simp at h
    · injection h with h2
      rw [← h2]
      exact trimNotFunctionError_ne field

theorem jsOrDefault_ne_empty (v : Option String) (d : String)
    (hd : d ≠ "") : jsOrDefault v d ≠ "" := by
  cases v with
  | none => exact hd
  | some s =>
    show (if s = "" then d else s) ≠ ""
    by_cases hs : s = ""
    · rw [if_pos hs]
      exact hd
    · rw [if_neg hs]
      exact hs

/-! ## Claim C5 -/

/-- Claim C5.  For every judge persona, if the judging call fails or the
judge's raw text is empty or not valid JSON, the judging stage still
produces a ballot for that judge with `rankedIds = []`, `scores = {}` and
a non-empty string in `notes` describing the failure; the ballot is
included in the vote list (one ballot per judge, so the turn is not
aborted). -/
theorem claim_C5 (parse : String → Option JsValue)
    (judge : JudgeAgentProfile) (outcome : Except JsError ModelResp)
    (h : (∃ e, outcome = .error e) ∨
      (∃ resp, outcome = .ok resp ∧
        (extractResponseText resp = "" ∨
          parse (extractResponseText resp) = none))) :
    (runJudgeVote parse judge outcome).rankedIds = [] ∧
    (runJudgeVote parse judge outcome).scores = [] ∧
    (∃ s, (runJudgeVote parse judge outcome).notes = .str s ∧ s ≠ "") ∧
    (∀ (judges : List JudgeAgentProfile)
        (oracle : Nat → Except JsError ModelResp),
      (judgeStage parse judges oracle).length = judges.length ∧
      ∀ (i : Nat) (hi : i < judges.length),
        runJudgeVote parse (judges.get ⟨i, hi⟩) (oracle i) ∈
          judgeStage parse judges oracle) := by
  have hstage : ∀ (judges : List JudgeAgentProfile)
      (oracle : Nat → Except JsError ModelResp),
      (judgeStage parse judges oracle).length = judges.length ∧
      ∀ (i : Nat) (hi : i < judges.length),
        runJudgeVote parse (judges.get ⟨i, hi⟩) (oracle i) ∈
          judgeStage parse judges oracle := by
    intro judges oracle
    have hlen : (judgeStage parse judges oracle).length = judges.length := by
      unfold judgeStage
      rw [List.length_map, List.enum_length]
    refine ⟨hlen, ?_⟩
    intro i hi
    have hi2 : i < (judgeStage parse judges oracle).length := by
      rw [hlen]; exact hi
    have hget : (judgeStage parse judges oracle).get ⟨i, hi2⟩ =
        runJudgeVote parse (judges.get ⟨i, hi⟩) (oracle i) := by
      unfold judgeStage
      rw [List.get_eq_getElem, List.getElem_map, List.getElem_enum]
      rfl
    rw [← hget]
    exact List.get_mem _ i hi2
  rcases h with ⟨e, rfl⟩ | ⟨resp, rfl, hbad⟩
  · refine ⟨rfl, rfl, ⟨"Judge failed: " ++ extractErrorMessage e, rfl,
      append_ne_empty _ _ (by decide)⟩, hstage⟩
  · have hjson : parseJsonResponseWith parse resp id judgeFallbackJson =
        judgeFallbackJson := by
      unfold parseJsonResponseWith
      by_cases ht : extractResponseText resp = ""
      · rw [if_pos ht]
      · rw [if_neg ht]
        rcases hbad with hbad | hbad
        · exact absurd hbad ht
        · rw [hbad]
    refine ⟨?_, ?_, ?_, hstage⟩
    · simp only [runJudgeVote, hjson]; rfl
    · simp only [runJudgeVote, hjson]; rfl
    · exact ⟨"Judge produced invalid JSON.",
        by simp only [runJudgeVote, hjson]; rfl, by decide⟩

/-- Witness for C5: a rejected judging call. -/
theorem claim_C5_witness :
    (runJudgeVote (fun _ => none)
        ⟨"j1", "Judge One", "d", "p", "m"⟩ (.error (.errObj "boom"))).rankedIds
      = [] :=
  (claim_C5 (fun _ => none) ⟨"j1", "Judge One", "d", "p", "m"⟩
    (.error (.errObj "boom")) (Or.inl ⟨.errObj "boom", rfl⟩)).1

/-! ## Claim C6 -/

theorem finalizerWinner_isSome (cands : List CandidateAnswer)
    (vr : VotingResult) (hne : cands ≠ []) :
    ∃ w, finalizerWinner cands vr = some w := by
  unfold finalizerWinner
  cases hf : cands.find? (fun c => c.id == vr.winnerId) with
  | some c => exact ⟨c, rfl⟩
  | none =>
    cases hh : cands.head? with
    | some c0 => exact ⟨c0, rfl⟩
    | none => exact absurd (List.head?_eq_none_iff.mp hh) hne

/-- Claim C6, amended.  For every finalizer-stage failure in which the
completion call *succeeds* but its output is empty or unparseable, the
turn completes with `final_answer` equal to the winning candidate's
`answer` verbatim, the fixed "Fell back to winning candidate …" rationale,
and `summary_title = truncate(userMessage, 60)` (so the title is derived
by truncating the user's question).  The original claim's other half is
false: `runFinalizer` has no `try`/`catch`, so a completion call that
*raises* propagates out of the stage and aborts the turn (see the
counterexample). -/
theorem claim_C6_amended (parse : String → Option JsValue)
    (userMessage : String) (cands : List CandidateAnswer)
    (vr : VotingResult) (resp : ModelResp) (hne : cands ≠ [])
    (hbad : extractResponseText resp = "" ∨
      parse (extractResponseText resp) = none) :
    ∃ w, finalizerWinner cands vr = some w ∧
      runFinalizer parse userMessage cands vr (.ok resp) =
        .ok { final_answer := w.answer,
              short_rationale :=
                "Fell back to winning candidate because the finalizer returned invalid JSON.",
              summary_title := some (truncate userMessage 60) } := by
  obtain ⟨w, hw⟩ := finalizerWinner_isSome cands vr hne
  refine ⟨w, hw, ?_⟩
  unfold runFinalizer
  rw [hw]
  have hjson : parseJsonResponseWith parse resp asFinalizerJson
      (finalizerFallback userMessage w) = finalizerFallback userMessage w := by
    unfold parseJsonResponseWith
    by_cases ht : extractResponseText resp = ""
    · rw [if_pos ht]
    · rw [if_neg ht]
      rcases hbad with hbad | hbad
      · exact absurd hbad ht
      · rw [hbad]
  show Except.ok (parseJsonResponseWith parse resp asFinalizerJson
    (finalizerFallback userMessage w)) = _
  rw [hjson]
  rfl

/-- Witness for C6 (amended): a response carrying no extractable text. -/
theorem claim_C6_witness :
    runFinalizer (fun _ => none) "What should we do?" [testCandidate "a"]
        ⟨"a", [("a", .int 0)], [⟨"a", .int 0⟩]⟩ (.ok ⟨none, none⟩) =
      .ok { final_answer := (testCandidate "a").answer,
            short_rationale :=
              "Fell back to winning candidate because the finalizer returned invalid JSON.",
            summary_title := some (truncate "What should we do?" 60) } := by
  obtain ⟨w, hw, hr⟩ := claim_C6_amended (fun _ => none) "What should we do?"
    [testCandidate "a"] ⟨"a", [("a", .int 0)], [⟨"a", .int 0⟩]⟩ ⟨none, none⟩
    (by decide) (Or.inl rfl)
  have hw2 : w = testCandidate "a" := by
    have h0 : finalizerWinner [testCandidate "a"] ⟨"a", [("a", .int 0)], [⟨"a", .int 0⟩]⟩
        = some (testCandidate "a") := by decide
    rw [h0] at hw
    exact (Option.some.injEq _ _ ▸ hw).symm
  rw [hw2] at hr
  exact hr

/-- Claim C6 counterexample.  A rejected finalizer completion call is not
caught anywhere in `runFinalizer`: the error propagates (aborting the
turn), refuting the claim that "a finalizer failure never aborts the
turn" for the call-raises case.  The second conjunct runs the whole
pipeline with every other stage succeeding and shows the turn itself ends
in an error. -/
theorem claim_C6_counterexample :
    runFinalizer (fun _ => none) "q" [testCandidate "a"]
        ⟨"a", [("a", .int 0)], [⟨"a", .int 0⟩]⟩ (.error (.errObj "network down")) =
      .error (.call "network down") ∧
    (runSwarmTurn
        (fun s =>
          if s = "\x7bW\x7d" then
            some (.obj [("answer", .str "Sample answer"),
                        ("reasoning", .str "Because")])
          else if s = "\x7bJ\x7d" then
            some (.obj [("ranked_ids", .arr []), ("scores", .obj []),
                        ("notes", .str "neutral")])
          else none)
        { userMessage := "How do we launch?", agentsCount := 2,
          discussionEnabled := false }
        { uuids := fun n => "cand-" ++ toString n,
          worker := fun _ =>
            .ok { output_text := some ["\x7bW\x7d"], output := none },
          discussion := fun _ => .error .otherVal,
          judge := fun _ =>
            .ok { output_text := some ["\x7bJ\x7d"], output := none },
          finalizer := .error (.errObj "network down") }).1 =
      .error "network down" := by
  exact ⟨rfl, rfl⟩

/-! ## Claim C7 -/

theorem parseJsonFromModel_some {α : Type} (parse : String → Option JsValue)
    (t : String) (cast : JsValue → α) (fallback : α) :
    parseJsonFromModel parse (some t) cast fallback =
      if t = "" then fallback
      else
        match parse (jsTrim (String.mk (stripFences t.data))) with
        | some v => cast v
        | none =>
          match braceSlice (jsTrim (String.mk (stripFences t.data))).data with
          | some sub =>
            match parse (String.mk sub) with
            | some v => cast v
            | none => fallback
          | none => fallback := rfl

/-- Claim C7.  For every input text and typed fallback, `parseJsonFromModel`
never raises (it is a total function) and returns either a parsed value or
the fallback unchanged, following exactly the documented steps: a missing
or empty text yields the fallback; otherwise the text is stripped of
fenced code-block wrappers and trimmed; a successful strict parse returns
the parsed value; otherwise the substring from the first brace to the last
brace (when the latter lies after the former) is parsed; on any remaining
failure the fallback itself is returned. -/
theorem claim_C7 {α : Type} (parse : String → Option JsValue) (t : String)
    (cast : JsValue → α) (fallback : α) :
    (parseJsonFromModel parse none cast fallback = fallback) ∧
    (parseJsonFromModel parse (some "") cast fallback = fallback) ∧
    (t ≠ "" →
      (∀ v, parse (jsTrim (String.mk (stripFences t.data))) = some v →
        parseJsonFromModel parse (some t) cast fallback = cast v) ∧
      (parse (jsTrim (String.mk (stripFences t.data))) = none →
        (∀ sub v,
          braceSlice (jsTrim (String.mk (stripFences t.data))).data =
            some sub →
          parse (String.mk sub) = some v →
          parseJsonFromModel parse (some t) cast fallback = cast v) ∧
        (∀ sub,
          braceSlice (jsTrim (String.mk (stripFences t.data))).data =
            some sub →
          parse (String.mk sub) = none →
          parseJsonFromModel parse (some t) cast fallback = fallback) ∧
        (braceSlice (jsTrim (String.mk (stripFences t.data))).data = none →
          parseJsonFromModel parse (some t) cast fallback = fallback))) ∧
    (∀ text, parseJsonFromModel parse text cast fallback = fallback ∨
      ∃ v, parseJsonFromModel parse text cast fallback = cast v) := by
  have hshape : ∀ text,
      parseJsonFromModel parse text cast fallback = fallback ∨
      ∃ v, parseJsonFromModel parse text cast fallback = cast v := by
    intro text
    match text with
    | none => exact Or.inl rfl
    | some t2 =>
      rw [parseJsonFromModel_some]
      by_cases ht : t2 = ""
      · rw [if_pos ht]
        exact Or.inl rfl
      · rw [if_neg ht]
        cases h1 : parse (jsTrim (String.mk (stripFences t2.data))) with
        | some v => exact Or.inr ⟨v, by simp only [h1]⟩
        | none =>
          cases h2 : braceSlice (jsTrim (String.mk (stripFences t2.data))).data with
          | none => exact Or.inl (by simp only [h1, h2])
          | some sub =>
            cases h3 : parse (String.mk sub) with
            | some v => exact Or.inr ⟨v, by simp only [h1, h2, h3]⟩
            | none => exact Or.inl (by simp only [h1, h2, h3])
  refine ⟨rfl, rfl, ?_, hshape⟩
  intro ht
  constructor
  · intro v hv
    rw [parseJsonFromModel_some, if_neg ht]
    simp only [hv]
  · intro hn
    refine ⟨?_, ?_, ?_⟩
    · intro sub v hsub hv
      rw [parseJsonFromModel_some, if_neg ht]
      simp only [hn, hsub, hv]
    · intro sub hsub hv
      rw [parseJsonFromModel_some, if_neg ht]
      simp only [hn, hsub, hv]
    · intro hsub
      rw [parseJsonFromModel_some, if_neg ht]
      simp only [hn, hsub]

/-- Witness for C7: a text that fails every parse falls back. -/
theorem claim_C7_witness :
    parseJsonFromModel (fun _ => none) (some "no braces here") id
      (JsValue.str "FB") = JsValue.str "FB" :=
  (((claim_C7 (fun _ => none) "no braces here" id
      (JsValue.str "FB")).2.2.1 (by decide)).2 rfl).2.2 (by decide)

/-! ## Claim C8 -/

/-- Claim C8.  For every requested worker count `n`, `selectWorkers n`
returns exactly `min(max(n, 1), MAX_WORKERS, rosterSize)` personas — a
prefix of the fixed roster, never zero and never more than are
available — and in particular `selectWorkers 0` and `selectWorkers (-10)`
each return exactly one persona. -/
theorem claim_C8 (n : ℤ) :
    ((selectWorkers n).length : ℤ) =
      min (max n 1) (min MAX_WORKERS (WORKER_AGENTS.length : ℤ)) ∧
    1 ≤ (selectWorkers n).length ∧
    (selectWorkers n).length ≤ WORKER_AGENTS.length ∧
    selectWorkers n =
      WORKER_AGENTS.take
        (max 1 (min n (min MAX_WORKERS (WORKER_AGENTS.length : ℤ)))).toNat ∧
    (selectWorkers 0).length = 1 ∧ (selectWorkers (-10)).length = 1 := by
  have hroster : WORKER_AGENTS.length = 16 := rfl
  have hmax : MAX_WORKERS = 64 := rfl
  have hlen : (selectWorkers n).length =
      (max 1 (min n (min MAX_WORKERS (WORKER_AGENTS.length : ℤ)))).toNat := by
    unfold selectWorkers
    rw [List.length_take, hroster, hmax]
    omega
  refine ⟨?_, ?_, ?_, rfl, by decide, by decide⟩
  · rw [hlen, hmax, hroster]
    omega
  · rw [hlen, hmax, hroster]
    omega
  · rw [hlen, hmax, hroster]
    omega

/-- Witness for C8 at a concrete in-range count. -/
theorem claim_C8_witness : (selectWorkers 5).length = 5 := by
  have h := (claim_C8 5).1
  have hmax : MAX_WORKERS = 64 := rfl
  have hroster : WORKER_AGENTS.length = 16 := rfl
  rw [hmax, hroster] at h
  omega

/-! ## Claim C9 -/

/-- Claim C9, amended.  The proposal stage produces exactly one candidate
per selected worker (a failed call yields a placeholder, never absence),
and a candidate's `answer`/`initialAnswer` are never empty.  `reasoning`
is never empty on the success path (including the `TypeError`s thrown by
the unvalidated JSON field reads, which the `catch` turns into their
non-empty messages); on a *failed call*, however, `reasoning` equals the
caught error's extracted message, which is empty exactly when the error
was an `Error` with an empty `message` or a thrown empty string — the
original claim's unconditional non-emptiness fails there (see the
counterexample).  An enabled discussion round preserves the candidate
count and the non-emptiness of `answer` and `reasoning`. -/
theorem claim_C9_amended (parse : String → Option JsValue)
    (worker : WorkerAgentProfile) (uuid model : String)
    (outcome : Except JsError ModelResp) :
    ((runWorkerCandidate parse worker uuid model outcome).answer ≠ "" ∧
     (runWorkerCandidate parse worker uuid model outcome).initialAnswer ≠ "") ∧
    (∀ resp, outcome = .ok resp →
      (runWorkerCandidate parse worker uuid model outcome).reasoning ≠ "") ∧
    (∀ e, outcome = .error e →
      (runWorkerCandidate parse worker uuid model outcome).reasoning =
        extractErrorMessage e) ∧
    (∀ (workers : List WorkerAgentProfile) (uuids : Nat → String)
        (oracle : Nat → Except JsError ModelResp),
      (proposalStage parse workers uuids model oracle).length =
        workers.length) ∧
    (∀ (cand : CandidateAnswer) (dOutcome : Except JsError ModelResp),
      (cand.answer ≠ "" →
        (runDiscussionCandidate parse cand dOutcome).answer ≠ "") ∧
      (cand.reasoning ≠ "" →
        (runDiscussionCandidate parse cand dOutcome).reasoning ≠ "")) ∧
    (∀ (cands : List CandidateAnswer)
        (oracle : Nat → Except JsError ModelResp),
      (runDiscussionRound parse cands oracle).length = cands.length) := by
  have hplen : ∀ (workers : List WorkerAgentProfile) (uuids : Nat → String)
      (oracle : Nat → Except JsError ModelResp),
      (proposalStage parse workers uuids model oracle).length =
        workers.length := by
    intro workers uuids oracle
    unfold proposalStage
    rw [List.length_map, List.enum_length]
  have hdlen : ∀ (cands : List CandidateAnswer)
      (oracle : Nat → Except JsError ModelResp),
      (runDiscussionRound parse cands oracle).length = cands.length := by
    intro cands oracle
    unfold runDiscussionRound
    rw [List.length_map, List.enum_length]
  have hdisc : ∀ (cand : CandidateAnswer)
      (dOutcome : Except JsError ModelResp),
      (cand.answer ≠ "" →
        (runDiscussionCandidate parse cand dOutcome).answer ≠ "") ∧
      (cand.reasoning ≠ "" →
        (runDiscussionCandidate parse cand dOutcome).reasoning ≠ "") := by
    intro cand dOutcome
    cases dOutcome with
    | error e => exact ⟨fun h => h, fun h => h⟩
    | ok resp =>
      simp only [runDiscussionCandidate]
      generalize parseJsonResponseWith parse resp id _ = j
      rcases hA : jsOptFieldTrim j "answer" with mA | a
      · simp only [hA]
        exact ⟨fun h => h, fun h => h⟩
      · rcases hB : jsOptFieldTrim j "reasoning" with mB | r
        · simp only [hA, hB]
          exact ⟨fun h => h, fun h => h⟩
        · simp only [hA, hB]
          exact ⟨fun h => jsOrDefault_ne_empty a cand.answer h,
                 fun h => jsOrDefault_ne_empty r cand.reasoning h⟩
  cases outcome with
  | error e =>
    refine ⟨⟨?_, ?_⟩, ?_, ?_, hplen, hdisc, hdlen⟩
    · show "Worker failed to respond." ≠ ""
      decide
    · show "Worker failed to respond." ≠ ""
      decide
    · intro resp hre
      simp at hre
    · intro e2 he
      injection he with h2
      rw [← h2]
      rfl
  | ok resp =>
    have hfields :
        (runWorkerCandidate parse worker uuid model (.ok resp)).answer ≠ "" ∧
        (runWorkerCandidate parse worker uuid model
          (.ok resp)).initialAnswer ≠ "" ∧
        (runWorkerCandidate parse worker uuid model
          (.ok resp)).reasoning ≠ "" := by
      simp only [runWorkerCandidate]
      generalize parseJsonResponseWith parse resp id _ = j
      rcases hA : jsOptFieldTrim j "answer" with mA | a
      · simp only [hA]
        exact ⟨by show "Worker failed to respond." ≠ ""; decide,
          by show "Worker failed to respond." ≠ ""; decide,
          jsOptFieldTrim_error_ne j "answer" mA hA⟩
      · rcases hB : jsOptFieldTrim j "reasoning" with mB | r
        · simp only [hA, hB]
          exact ⟨by show "Worker failed to respond." ≠ ""; decide,
            by show "Worker failed to respond." ≠ ""; decide,
            jsOptFieldTrim_error_ne j "reasoning" mB hB⟩
        · simp only [hA, hB]
          exact ⟨jsOrDefault_ne_empty a _ (by decide),
            jsOrDefault_ne_empty a _ (by decide),
            jsOrDefault_ne_empty r _ (by decide)⟩
    refine ⟨⟨hfields.1, hfields.2.1⟩, fun _ _ => hfields.2.2, ?_, hplen,
      hdisc, hdlen⟩
    intro e2 he
    simp at he

/-- Witness for C9 (amended): the placeholder answer of a failed call is
non-empty. -/
theorem claim_C9_witness :
    (runWorkerCandidate (fun _ => none) ⟨"w", "W", "d", "p", "m"⟩ "u" "m"
      (.error (.errObj "boom"))).answer ≠ "" :=
  (claim_C9_amended (fun _ => none) ⟨"w", "W", "d", "p", "m"⟩ "u" "m"
    (.error (.errObj "boom"))).1.1

/-- Claim C9 counterexample.  A worker call that fails with an `Error` whose
`message` is the empty string produces a candidate whose `reasoning` *is*
the empty string, refuting the claim that `answer` and `reasoning` are
non-empty on the failure path. -/
theorem claim_C9_counterexample :
    (runWorkerCandidate (fun _ => none) ⟨"w", "W", "d", "p", "m"⟩ "u" "m"
      (.error (.errObj ""))).reasoning = "" := rfl

/-! ## Claim C10 -/

/-- Claim C10.  For every input whose `userMessage` is empty or consists
only of whitespace, `runSwarmTurn` fails with the error "Message cannot be
empty." before any completion-gateway call is issued (the call counter is
`0`), regardless of every other parameter and of every call outcome. -/
theorem claim_C10 (parse : String → Option JsValue)
    (params : SwarmTurnParams) (o : TurnOracles)
    (h : jsTrim params.userMessage = "") :
    runSwarmTurn parse params o = (.error "Message cannot be empty.", 0) := by
  unfold runSwarmTurn
  rw [if_pos h]

/-- Witness for C10: a whitespace-only message. -/
theorem claim_C10_witness :
    runSwarmTurn (fun _ => none)
      { userMessage := "   ", agentsCount := 3, discussionEnabled := true }
      { uuids := fun _ => "u", worker := fun _ => .error .otherVal,
        discussion := fun _ => .error .otherVal,
        judge := fun _ => .error .otherVal,
        finalizer := .error .otherVal } =
      (.error "Message cannot be empty.", 0) :=
  claim_C10 (fun _ => none)
    { userMessage := "   ", agentsCount := 3, discussionEnabled := true }
    { uuids := fun _ => "u", worker := fun _ => .error .otherVal,
      discussion := fun _ => .error .otherVal,
      judge := fun _ => .error .otherVal,
      finalizer := .error .otherVal } (by decide)

end SwarmConsensus


